import Mathlib

/-!
Shallow embedding of the core build-engine pieces of the cargo repository
(`src/cargo/core/compiler/build_runner/mod.rs`,
`src/cargo/core/compiler/build_context/target_info.rs`,
`src/cargo/core/compiler/output_sbom.rs`,
`crates/cargo-util/src/registry.rs`, `crates/cargo-util/src/du.rs`),
with theorems settling the frozen claims about it.

Rust strings are modelled as `String`/`List Char` (Rust `char` iteration is
Unicode-scalar iteration, exactly `String.toList`), `u64` arithmetic is `Nat`
with explicit `% 2 ^ 64`, and fallible code returns `Except`.
-/

set_option autoImplicit false

namespace Cargo

/-! Section: Registry path sharding (`crates/cargo-util/src/registry.rs`) -/

/-- Core of `make_dep_path`, over the sequence of user-perceived characters
(`dep_name.chars()` in the source). Mirrors the Rust `match` on
`dep_name.chars().take(4).count()` with arms `1`, `2`, `3` and `_`. -/
def mdp (dep_name : List Char) (prefix_only : Bool) : List Char :=
  let slash := if prefix_only then [] else ['/']
  let name := if prefix_only then [] else dep_name
  match (dep_name.take 4).length with
  | 1 => '1' :: (slash ++ name)
  | 2 => '2' :: (slash ++ name)
  | 3 => '3' :: '/' :: (dep_name.take 1 ++ slash ++ name)
  | _ => dep_name.take 2 ++ '/' :: ((dep_name.drop 2).take 2 ++ slash ++ name)

/-- Source function `make_dep_path` from `crates/cargo-util/src/registry.rs`. -/
def make_dep_path (dep_name : String) (prefix_only : Bool) : String :=
  String.mk (mdp dep_name.toList prefix_only)

/-- Splitting a character sequence on the separator `/`, the claim-side
reading of "splitting the path on /". `splitSlash l` is never empty and
`joinSlash (splitSlash l) = l`. -/
def splitSlash : List Char → List (List Char)
  | [] => [[]]
  | c :: cs =>
    if c = '/' then [] :: splitSlash cs
    else
      match splitSlash cs with
      | [] => [[c]]
      | s :: ss => (c :: s) :: ss

/-- Joining segments with the separator `/` (inverse of `splitSlash`). -/
def joinSlash : List (List Char) → List Char
  | [] => []
  | [s] => s
  | s :: ss => s ++ '/' :: joinSlash ss

/-! Section: Data model (spec section 3)

`CompileMode`, `CompileKind`, `Target` and `Unit` live in repository files that
are not part of this extract (`core/compiler/compile_kind.rs`, `core/unit.rs`,
`core/manifest.rs`); only the fields and accessors the claims use are modelled,
from the words of the spec. -/

/-- Modelled from the spec: `CompileMode` is one of Build, Check, Doc,
DocScrape, Doctest, Test, Bench, RunCustomBuild (spec section 3). -/
inductive CompileMode where
  | Build
  | Check
  | Doc
  | DocScrape
  | Doctest
  | Test
  | Bench
  | RunCustomBuild
deriving DecidableEq, Repr

/-- Modelled from the spec: `CompileMode::is_doc` holds exactly for Doc mode. -/
def CompileMode.is_doc (m : CompileMode) : Bool := m = .Doc

/-- Modelled from the spec: `CompileMode::is_doc_scrape` holds exactly for
DocScrape mode. -/
def CompileMode.is_doc_scrape (m : CompileMode) : Bool := m = .DocScrape

/-- Modelled from the spec: `CompileMode::is_check` holds exactly for Check
mode. -/
def CompileMode.is_check (m : CompileMode) : Bool := m = .Check

/-- Modelled from the spec: `CompileMode::is_run_custom_build` holds exactly
for RunCustomBuild mode. -/
def CompileMode.is_run_custom_build (m : CompileMode) : Bool := m = .RunCustomBuild

/-- Modelled from the spec: `CompileKind` is Host or Target(triple)
(spec section 3). -/
inductive CompileKind where
  | Host
  | Target (triple : String)
deriving DecidableEq, Repr

/-- Modelled from the spec: the target kinds (library, binary, test, example,
benchmark, custom-build; spec section 3). Only `Bin` is inspected by the
claims. -/
inductive TargetKind where
  | Lib
  | Bin
  | TestKind
  | Bench
  | ExampleLib
  | ExampleBin
  | CustomBuild
deriving DecidableEq, Repr

/-- Modelled from the spec: the fields of `Target` the claims consult.
`kindDesc` stands for `target.kind().description()`, a display string. -/
structure Target where
  name : String
  crate_name : String
  kindDesc : String
  is_lib : Bool
  is_executable : Bool
  is_cdylib : Bool
deriving DecidableEq, Repr

/-- Modelled from the spec: a `Unit` is the atomic schedulable item, keyed by
(package, target, profile, mode, kind, features, ...) (spec section 3).
`pkg` is the display form of the package id; fields the claims never consult
(profile, features, rustflags) are collapsed into `profile : Nat` so that
distinct units with equal visible fields remain expressible.
`requires_upstream_objects` records the value of the collaborator method
`Unit::requires_upstream_objects` (defined outside this extract); the claims
only read it. -/
structure Unit where
  pkg : String
  target : Target
  profile : Nat
  mode : CompileMode
  kind : CompileKind
  requires_upstream_objects : Bool
deriving DecidableEq, Repr

/-- Source structure `UnitDep` edge of the unit graph (`core/compiler/unit_graph.rs`): the
child unit plus the flag visible to the claims. -/
structure UnitDep where
  unit : Unit
  public : Bool
deriving DecidableEq, Repr

/-- A unit graph as an association list `Unit -> ordered list of UnitDep`
(the HashMap iteration order is the list order). -/
abbrev UnitGraph := List (Unit × List UnitDep)

/-- File flavors from `core/compiler/build_context/target_info.rs`
(`FileFlavor`; `Auxiliary` is the later addition used by
`build_runner/mod.rs`). -/
inductive FileFlavor where
  | Normal
  | Linkable
  | DebugInfo
  | Auxiliary
deriving DecidableEq, Repr

/-! Section: rmeta bookkeeping (`build_runner/mod.rs`, claim C1) -/

/-- Source function `BuildRunner::only_requires_rmeta` (build_runner/mod.rs lines 634-643). -/
def only_requires_rmeta (parent dep : Unit) : Bool :=
  !parent.requires_upstream_objects
    && parent.mode = CompileMode.Build
    && !dep.requires_upstream_objects
    && dep.mode = CompileMode.Build

/-- Set insertion for lists, mirroring `HashSet::insert`. -/
def setInsert {α : Type} [DecidableEq α] (x : α) (s : List α) : List α :=
  if x ∈ s then s else s ++ [x]

/-- Source function `BuildRunner::record_units_requiring_metadata` (build_runner/mod.rs lines
622-630): walks every edge of the unit graph and inserts `dep.unit` into the
`rmeta_required` set whenever `only_requires_rmeta key dep.unit` holds. -/
def record_units_requiring_metadata (g : UnitGraph) : List Unit :=
  g.foldl
    (fun acc kd =>
      kd.2.foldl
        (fun acc dep =>
          if only_requires_rmeta kd.1 dep.unit then setInsert dep.unit acc else acc)
        acc)
    []

/-- Type `Metadata` is a 64-bit hash (spec section 3); computed by the collaborator
`CompilationFiles::metadata`, which the embedding takes as a function
parameter `md`. Only equality of hashes matters to the claims. -/
abbrev Metadata := Nat

/-! Section: Doc metadata sharing (`build_runner/mod.rs`, claim C3) -/

/-- The `matching_units` filter of `compute_metadata_for_doc_units`
(build_runner/mod.rs lines 668-677): units of the same package and target
that are not DocScrape units. -/
def doc_matching (units : List Unit) (u : Unit) : List Unit :=
  units.filter (fun other =>
    u.pkg = other.pkg && u.target = other.target && !other.mode.is_doc_scrape)

/-- Source function `BuildRunner::compute_metadata_for_doc_units` (build_runner/mod.rs lines
662-686): for each Doc or DocScrape unit, pick the first matching Check unit,
else the first matching Doc unit, else the unit itself, and record its
metadata. The unit graph keys are the list `units`; `md` is the collaborator
metadata function. -/
def compute_metadata_for_doc_units (units : List Unit) (md : Unit → Metadata) :
    List (Unit × Metadata) :=
  units.filterMap (fun unit =>
    if !unit.mode.is_doc && !unit.mode.is_doc_scrape then none
    else
      let metadata_unit :=
        match (doc_matching units unit).find? (fun other => other.mode.is_check) with
        | some c => c
        | none =>
          match (doc_matching units unit).find? (fun other => other.mode.is_doc) with
          | some d => d
          | none => unit
      some (unit, md metadata_unit))

/-! Section: Jobserver setup (`BuildRunner::new`, claim C4) -/

/-- The jobserver client of the external `jobserver` crate, modelled by the
number of free tokens in its pipe. -/
structure Client where
  free : Nat
deriving DecidableEq, Repr

/-- Outcome of the operating-system side of `Client::new` in the external
jobserver crate: the pipe is created, or creation fails with an error. -/
inductive OsNew where
  | ok
  | fail (e : String)
deriving DecidableEq, Repr

/-- Modelled from the spec: `Client::acquire_raw` of the jobserver crate
takes one token from the pipe (the failure arm stands for the crate's
acquisition error). -/
def Client.acquire_raw (c : Client) : Except String Client :=
  if c.free = 0 then .error "failed to acquire jobserver token"
  else .ok ⟨c.free - 1⟩

/-- The jobserver part of `BuildRunner::new` (build_runner/mod.rs lines
100-108): use the client inherited from the environment when present;
otherwise create a fresh client with `jobs` tokens (adding the context
"failed to create jobserver" when creation fails) and immediately acquire
one token before returning. -/
def new_jobserver (env : Option Client) (jobs : Nat) (osNew : OsNew) :
    Except String Client :=
  match env with
  | some c => .ok c
  | none =>
    match osNew with
    | .fail e => .error ("failed to create jobserver: " ++ e)
    | .ok =>
      let client : Client := ⟨jobs⟩
      match client.acquire_raw with
      | .error e => .error e
      | .ok c => .ok c

/-! Section: Disk usage (`crates/cargo-util/src/du.rs`, claim C9) -/

/-- Metadata of a directory entry as `du_inner` consumes it: whether it is a
regular file, and its byte size (a `u64`, so below `2 ^ 64`). -/
structure FileMeta where
  is_file : Bool
  len : Nat
deriving DecidableEq, Repr

/-- One visited directory entry: producing the entry or its metadata may fail
(the two `Err` arms inside the walker closure of `du_inner`). -/
abbrev WalkItem := Except String FileMeta

/-- A filesystem subtree flattened to the entries the walker visits: each
entry has a path relative to the root and a walk outcome. -/
structure FSEntry where
  path : String
  item : WalkItem
deriving Repr

/-- Modelled from the spec: override matching of the external `ignore` crate.
`matcher pats p` decides whether path `p` matches the gitignore-style
patterns `pats`; with no patterns every entry is selected. -/
def selects (matcher : List String → String → Bool) (patterns : List String)
    (path : String) : Bool :=
  patterns.isEmpty || matcher patterns path

/-- The accumulation loop of `du_inner` (du.rs lines 60-101): regular files
add their byte size to the `u64` total (`fetch_add` wraps, hence the
`% 2 ^ 64`); the first error quits the walk and is returned. -/
def duLoop : List WalkItem → Nat → Except String Nat
  | [], total => .ok total
  | .error e :: _, _ => .error e
  | .ok m :: rest, total =>
      duLoop rest (if m.is_file then (total + m.len) % 2 ^ 64 else total)

/-- Source function `du_inner` (du.rs lines 28-102): build the overrides (`buildErr` is the
error of `OverrideBuilder::add`/`build` in the external ignore crate, when
any), then walk the entries selected by the patterns summing file sizes. -/
def du_inner (fs : List FSEntry) (matcher : List String → String → Bool)
    (patterns : List String) (buildErr : Option String) : Except String Nat :=
  match buildErr with
  | some e => .error e
  | none =>
      duLoop
        ((fs.filter (fun en => selects matcher patterns en.path)).map
          (fun en => en.item))
        0

/-- Source function `du` (du.rs lines 24-26): `du_inner` with the context
"failed to walk `<path>`" added to any error. -/
def du (path : String) (fs : List FSEntry)
    (matcher : List String → String → Bool) (patterns : List String)
    (buildErr : Option String) : Except String Nat :=
  match du_inner fs matcher patterns buildErr with
  | .error e => .error ("failed to walk `" ++ path ++ "`: " ++ e)
  | .ok n => .ok n

/-- Byte sizes of exactly the regular files among the given walk items,
summed without wrapping (the claim-side description of the sum). -/
def itemsSize (items : List WalkItem) : Nat :=
  (items.filterMap (fun it =>
    match it with
    | .ok m => if m.is_file then some m.len else none
    | .error _ => none)).sum

/-- Total `itemsSize` over the outcomes of a list of entries. -/
def totalSize (entries : List FSEntry) : Nat :=
  itemsSize (entries.map (fun en => en.item))

/-- A concrete matcher selecting everything, for closed-theorem inputs. -/
def trueMatcher : List String → String → Bool := fun _ _ => true

/-! Section: Target file types (`build_context/target_info.rs`, claim C7) -/

/-- Rust `str::starts_with` over user-perceived characters. -/
def sStartsWith (s pat : String) : Bool := pat.toList.isPrefixOf s.toList

/-- Rust `str::ends_with` over user-perceived characters. -/
def sEndsWith (s pat : String) : Bool := pat.toList.isSuffixOf s.toList

/-- Substring search used by `sContains`: does `pat` occur contiguously in
the list? -/
def hasInfix (pat : List Char) : List Char → Bool
  | [] => pat.isEmpty
  | c :: cs => pat.isPrefixOf (c :: cs) || hasInfix pat cs

/-- Rust `str::contains` (substring test) over user-perceived characters. -/
def sContains (s pat : String) : Bool := hasInfix pat.toList s.toList

/-- Source structure `FileType` (target_info.rs lines 30-40). The source field `prefix` is
renamed `pre` because `prefix` is reserved in Lean. -/
structure FileType where
  flavor : FileFlavor
  suffix : String
  pre : String
  should_replace_hyphens : Bool
deriving DecidableEq, Repr

/-- Rust `str::replace("-", "_")`: single-character pattern, so a
character-by-character map. -/
def replaceHyphens (s : String) : String :=
  String.mk (s.toList.map (fun c => if c = '-' then '_' else c))

/-- Source function `FileType::filename` (target_info.rs lines 43-50). -/
def FileType.filename (t : FileType) (stem : String) : String :=
  let stem := if t.should_replace_hyphens then replaceHyphens stem else stem
  t.pre ++ stem ++ t.suffix

/-- Source function `TargetInfo::file_types` (target_info.rs lines 156-230).
`crate_type_info` is the probed `(prefix, suffix)` pair for the crate type
(`None` when the compiler does not support it); the `RefCell` probing cache
around it is I/O and outside the claim. -/
def file_types (crate_type : String) (flavor : FileFlavor) (kind : TargetKind)
    (target_triple : String) (crate_type_info : Option (String × String)) :
    Option (List FileType) :=
  match crate_type_info with
  | none => none
  | some (pre, suffix) =>
    let ret := [FileType.mk flavor suffix pre false]
    let ret := if sEndsWith target_triple "pc-windows-msvc"
        && sEndsWith crate_type "dylib" && suffix = ".dll"
      then ret ++ [FileType.mk .Normal ".dll.lib" pre false] else ret
    let ret := if sStartsWith target_triple "wasm32-" && crate_type = "bin"
        && suffix = ".js"
      then ret ++ [FileType.mk .Normal ".wasm" pre true] else ret
    let ret := if kind = TargetKind.Bin then
        if sContains target_triple "-apple-" then
          ret ++ [FileType.mk .DebugInfo ".dSYM" pre false]
        else if sEndsWith target_triple "-msvc" then
          ret ++ [FileType.mk .DebugInfo ".pdb" pre false]
        else ret
      else ret
    some ret

/-- The extra-files table of spec section 4.1 read literally, every row an
independent condition (the words of claim C7). -/
def file_types_table (crate_type : String) (flavor : FileFlavor) (kind : TargetKind)
    (target_triple : String) (crate_type_info : Option (String × String)) :
    Option (List FileType) :=
  match crate_type_info with
  | none => none
  | some (pre, suffix) =>
    some ([FileType.mk flavor suffix pre false]
      ++ (if sEndsWith target_triple "pc-windows-msvc"
            && sEndsWith crate_type "dylib" && suffix = ".dll"
          then [FileType.mk .Normal ".dll.lib" pre false] else [])
      ++ (if sStartsWith target_triple "wasm32-" && crate_type = "bin"
            && suffix = ".js"
          then [FileType.mk .Normal ".wasm" pre true] else [])
      ++ (if kind = TargetKind.Bin && sContains target_triple "-apple-"
          then [FileType.mk .DebugInfo ".dSYM" pre false] else [])
      ++ (if kind = TargetKind.Bin && sEndsWith target_triple "-msvc"
          then [FileType.mk .DebugInfo ".pdb" pre false] else []))

/-- The table amended to match the else-if in the source: the `.pdb` row
applies only when the triple does not also contain "-apple-". -/
def file_types_table_amended (crate_type : String) (flavor : FileFlavor)
    (kind : TargetKind) (target_triple : String)
    (crate_type_info : Option (String × String)) : Option (List FileType) :=
  match crate_type_info with
  | none => none
  | some (pre, suffix) =>
    some ([FileType.mk flavor suffix pre false]
      ++ (if sEndsWith target_triple "pc-windows-msvc"
            && sEndsWith crate_type "dylib" && suffix = ".dll"
          then [FileType.mk .Normal ".dll.lib" pre false] else [])
      ++ (if sStartsWith target_triple "wasm32-" && crate_type = "bin"
            && suffix = ".js"
          then [FileType.mk .Normal ".wasm" pre true] else [])
      ++ (if kind = TargetKind.Bin && sContains target_triple "-apple-"
          then [FileType.mk .DebugInfo ".dSYM" pre false] else [])
      ++ (if kind = TargetKind.Bin && !sContains target_triple "-apple-"
            && sEndsWith target_triple "-msvc"
          then [FileType.mk .DebugInfo ".pdb" pre false] else []))

/-! Section: Compilation assembly (`BuildRunner::compile`, claim C10) -/

/-- Source structure `OutputFile` (spec section 3, `compilation_files.rs`): compiler-written
path, optional user-visible hardlink, optional export copy, flavor. -/
structure OutputFile where
  path : String
  hardlink : Option String
  export_path : Option String
  flavor : FileFlavor
deriving DecidableEq, Repr

/-- Modelled from the spec: `OutputFile::bin_dst` (in `compilation_files.rs`,
outside the extract) is the hardlink when present, else the compiler path
("hardlink is the user-visible name in dest/"). -/
def OutputFile.bin_dst (o : OutputFile) : String := o.hardlink.getD o.path

/-- The tests, binaries and cdylibs accumulated by `BuildRunner::compile`
into the `Compilation`, each entry a (unit, path) pair in insertion order. -/
structure CollectState where
  tests : List (Unit × String)
  binaries : List (Unit × String)
  cdylibs : List (Unit × String)
deriving Repr

/-- The per-output body of the collection loop in `BuildRunner::compile`
(build_runner/mod.rs lines 216-241): DebugInfo and Auxiliary outputs are
skipped; Test-mode units push (unit, path) onto tests; executables push
(unit, bin_dst) onto binaries; cdylibs push (unit, bin_dst) unless an entry
for the same unit is already present. -/
def collect_output (unit : Unit) (st : CollectState) (output : OutputFile) :
    CollectState :=
  if output.flavor = FileFlavor.DebugInfo ∨ output.flavor = FileFlavor.Auxiliary then
    st
  else if unit.mode = CompileMode.Test then
    { st with tests := st.tests ++ [(unit, output.path)] }
  else if unit.target.is_executable then
    { st with binaries := st.binaries ++ [(unit, output.bin_dst)] }
  else if unit.target.is_cdylib = true ∧ ∀ e ∈ st.cdylibs, ¬(e.1 = unit) then
    { st with cdylibs := st.cdylibs ++ [(unit, output.bin_dst)] }
  else st

/-- The collection loop of `BuildRunner::compile` over the root units. -/
def collect_root_outputs (roots : List Unit) (outputs : Unit → List OutputFile) :
    CollectState :=
  roots.foldl (fun st unit => (outputs unit).foldl (collect_output unit) st)
    ⟨[], [], []⟩

/-- An output file participates in the collection iff its flavor is neither
DebugInfo nor Auxiliary. -/
def qualifying (o : OutputFile) : Bool :=
  decide (¬(o.flavor = FileFlavor.DebugInfo ∨ o.flavor = FileFlavor.Auxiliary))

/-! Section: Output collision check (`BuildRunner::check_collisions`, claim C2) -/

/-- Operation `HashMap::insert` on an association list: returns the previous value
bound to the key (if any) together with the updated map. -/
def assocInsert {κ ν : Type} [DecidableEq κ] (k : κ) (v : ν) :
    List (κ × ν) → Option ν × List (κ × ν)
  | [] => (none, [(k, v)])
  | e :: rest =>
    if e.1 = k then (some e.2, (k, v) :: rest)
    else
      let r := assocInsert k v rest
      (r.1, e :: r.2)

/-- State threaded through `check_collisions`: the `doc_libs` and `doc_bins`
maps keyed by (crate name, compile kind), the `output_collisions` map keyed
by path, and the warnings emitted so far. A warning is recorded as the pair
of colliding units and the path (the shell text is presentation only). -/
structure CCState where
  doc_libs : List ((String × CompileKind) × Unit)
  doc_bins : List ((String × CompileKind) × Unit)
  output_collisions : List (String × Unit)
  warnings : List (Unit × Unit × String)

/-- The fatal message of `doc_collision_error` (build_runner/mod.rs lines
538-552), naming both targets and both package ids. -/
def doc_collision_error_msg (unit other : Unit) : String :=
  "document output filename collision\nThe " ++ unit.target.kindDesc ++
    " `" ++ unit.target.name ++ "` in package `" ++ unit.pkg ++
    "` has the same name as the " ++ other.target.kindDesc ++ " `" ++
    other.target.name ++ "` in package `" ++ other.pkg ++
    "`.\nOnly one may be documented at once since they output to the same path.\n" ++
    "Consider documenting only one, renaming one, " ++
    "or marking one with `doc = false` in Cargo.toml."

/-- Source function `BuildRunner::is_primary_package`: the unit belongs to a package the user
selected. `primaries` is the set of primary package ids. -/
def is_primary_package (primaries : List String) (u : Unit) : Bool :=
  u.pkg ∈ primaries

/-- The doc-collision part of the per-unit loop of `check_collisions`
(build_runner/mod.rs lines 571-585): primary Doc-mode units are entered into
`doc_libs` (library targets) or `doc_bins` (all other targets) keyed by
(crate name, kind); a displaced previous entry is a fatal error. -/
def doc_check (primaries : List String) (u : Unit) (st : CCState) :
    Except String CCState :=
  if u.mode.is_doc && is_primary_package primaries u then
    if u.target.is_lib then
      match assocInsert (u.target.crate_name, u.kind) u st.doc_libs with
      | (some prev, _) => .error (doc_collision_error_msg u prev)
      | (none, m) => .ok { st with doc_libs := m }
    else
      match assocInsert (u.target.crate_name, u.kind) u st.doc_bins with
      | (some prev, _) => .error (doc_collision_error_msg u prev)
      | (none, m) => .ok { st with doc_bins := m }
  else .ok st

/-- One insertion into the `output_collisions` map: a displaced previous
entry becomes a warning (never an error), matching the three
`report_collision`/warn blocks of build_runner/mod.rs lines 586-612. -/
def cc_insert (u : Unit) (p : String) (st : CCState) : CCState :=
  match assocInsert p u st.output_collisions with
  | (some other, m) =>
    { st with output_collisions := m, warnings := st.warnings ++ [(u, other, p)] }
  | (none, m) => { st with output_collisions := m }

/-- Processing of one `OutputFile` inside `check_collisions`: its path, then
its hardlink (when present), then its export path (when present). -/
def process_output (u : Unit) (st : CCState) (o : OutputFile) : CCState :=
  let st := cc_insert u o.path st
  let st :=
    match o.hardlink with
    | none => st
    | some hl => cc_insert u hl st
  match o.export_path with
  | none => st
  | some ep => cc_insert u ep st

/-- The output-collision part of the per-unit loop of `check_collisions`. -/
def outputs_check (u : Unit) (os : List OutputFile) (st : CCState) : CCState :=
  os.foldl (process_output u) st

/-- One iteration of the `check_collisions` loop: the doc-collision check
(fatal), then the output-collision bookkeeping (warnings). -/
def ccStep (primaries : List String) (outputs : Unit → List OutputFile)
    (st : CCState) (u : Unit) : Except String CCState := do
  let st2 ← doc_check primaries u st
  pure (outputs_check u (outputs u) st2)

/-- Source function `BuildRunner::check_collisions` (build_runner/mod.rs lines 479-616) over
the unit graph keys `units`. The source sorts the filtered keys for stable
messages; the sort does not change whether an error occurs, so `units` here
stands for the already-sorted key list. -/
def check_collisions (units : List Unit) (outputs : Unit → List OutputFile)
    (primaries : List String) : Except String CCState :=
  (units.filter (fun u => !u.mode.is_run_custom_build)).foldlM
    (ccStep primaries outputs) ⟨[], [], [], []⟩

/-- The (crate name, compile kind) key of the doc-collision maps. -/
def dockey (u : Unit) : String × CompileKind := (u.target.crate_name, u.kind)

/-- The condition of claim C2 for a fatal doc collision: two distinct
primary Doc-mode units, both libraries or both non-libraries, sharing the
same crate name and compile kind. -/
def fatal_pair (primaries : List String) (u1 u2 : Unit) : Prop :=
  ¬(u1 = u2) ∧ u1.mode = CompileMode.Doc ∧ u2.mode = CompileMode.Doc ∧
    u1.pkg ∈ primaries ∧ u2.pkg ∈ primaries ∧
    u1.target.is_lib = u2.target.is_lib ∧
    u1.target.crate_name = u2.target.crate_name ∧ u1.kind = u2.kind

/-- The three path slots of one `OutputFile` that enter the
`output_collisions` map. -/
def output_paths (o : OutputFile) : List String :=
  [o.path] ++
    (match o.hardlink with | none => [] | some hl => [hl]) ++
    (match o.export_path with | none => [] | some ep => [ep])

/-- Every path a unit contributes to the `output_collisions` map. -/
def unit_paths (outputs : Unit → List OutputFile) (u : Unit) : List String :=
  (outputs u).flatMap output_paths

/-- A path is registered in the `output_collisions` map. -/
def keyIn (st : CCState) (p : String) : Prop :=
  ∃ e ∈ st.output_collisions, e.1 = p

/-- Invariant of the doc-collision maps: the map holds exactly the primary
Doc-mode units among the already-processed units `pre` whose library flag is
`isLib`, keyed by their (crate name, kind). -/
def docEntryInv (primaries : List String) (pre : List Unit) (isLib : Bool)
    (m : List ((String × CompileKind) × Unit)) : Prop :=
  ∀ k w, ((k, w) ∈ m) ↔
    (w ∈ pre ∧ w.mode = CompileMode.Doc ∧ w.pkg ∈ primaries ∧
     w.target.is_lib = isLib ∧ k = dockey w)

/-! Section: SBOM package collection (`output_sbom.rs`, claim C8)

`collect_packages` (output_sbom.rs lines 245-292) walks the unit graph from
the root unit with a `BTreeSet<&UnitDep>` work queue. Only the identity and
the derived `Ord` order of each `UnitDep` matter to the claim, so a `UnitDep`
is abstracted to a `Nat` id whose numeric order stands for the derived
lexicographic `Ord`; `graph d` lists the ids of the unit-graph dependencies
of the unit of dep `d`. A `BTreeSet` is a sorted duplicate-free list whose
head is `pop_first`. -/

/-- Operation `BTreeSet::insert` on the sorted-list representation. -/
def btreeInsert (x : Nat) : List Nat → List Nat
  | [] => [x]
  | y :: ys =>
    if x < y then x :: y :: ys
    else if x = y then y :: ys
    else y :: btreeInsert x ys

/-- A `BTreeSet` collected from a list (`iter().collect::<BTreeSet<_>>()`). -/
def btreeOfList (l : List Nat) : List Nat := l.foldr btreeInsert []

/-- The first phase of `collect_packages` (output_sbom.rs lines 255-268): pop
the least queued dep; skip it when visited; otherwise push it onto
`packages`, enqueue its dependencies and mark it visited. Returns the
`packages` list in push order and the visited set in its sorted order.
`fuel` bounds the loop; any value at least the number of reachable deps plus
queue length is enough. -/
def collectPhase1 (graph : Nat → List Nat) :
    Nat → List Nat → List Nat → List Nat → (List Nat × List Nat)
  | 0, _, visited, pkgs => (pkgs.reverse, visited)
  | fuel + 1, queue, visited, pkgs =>
    match queue with
    | [] => (pkgs.reverse, visited)
    | d :: rest =>
      if d ∈ visited then collectPhase1 graph fuel rest visited pkgs
      else
        collectPhase1 graph fuel
          ((btreeOfList (graph d)).foldr btreeInsert rest)
          (btreeInsert d visited) (d :: pkgs)

/-- Source function `collect_packages` (output_sbom.rs lines 245-292), keeping for each entry
the dep it represents and its `dependencies` index list: the second phase
enumerates the sorted `visited_dependencies`, computes each dependency
position inside that sorted set, and writes the indices into
`packages[index]`. -/
def collect_packages (graph : Nat → List Nat) (roots : List Nat) (fuel : Nat) :
    List (Nat × List Nat) :=
  let r := collectPhase1 graph fuel (btreeOfList roots) [] []
  r.1.enum.map (fun ie =>
    match r.2.get? ie.1 with
    | some v =>
      (ie.2, (btreeOfList (graph v)).filterMap
        (fun dep => r.2.findIdx? (fun x => x == dep)))
    | none => (ie.2, []))

/-- The failing unit graph for claim C8: the root depends on dep 1, whose
unit depends on dep 0, and dep 0 orders before dep 1. -/
def exGraph : Nat → List Nat := fun n => if n = 1 then [0] else []

/-! Section: Concrete inputs used by the witness theorems -/

/-- A concrete library target used in witnesses. -/
def t0 : Target :=
  { name := "foo", crate_name := "foo", kindDesc := "lib",
    is_lib := true, is_executable := false, is_cdylib := false }

/-- A Doc-mode unit of the package `foo` used in witnesses. -/
def u0doc : Unit :=
  { pkg := "foo v1.0.0", target := t0, profile := 7, mode := .Doc,
    kind := .Host, requires_upstream_objects := false }

/-- A second primary Doc-mode unit with the same crate name, used in the C2
witness. -/
def u1doc : Unit :=
  { pkg := "baz v0.5.0", target := t0, profile := 1, mode := .Doc,
    kind := .Host, requires_upstream_objects := false }

/-- An output map with no files, used in the C2 witness. -/
def outEmpty : Unit → List OutputFile := fun _ => []

/-- A Test-mode unit used in the C10 witness. -/
def uTest : Unit :=
  { pkg := "bar v0.1.0", target := t0, profile := 0, mode := .Test,
    kind := .Host, requires_upstream_objects := false }

/-- A fixed output map for the C10 witness: one Normal file, one DebugInfo
file. -/
def outFixed : Unit → List OutputFile := fun _ =>
  [⟨"deps/bar-abc", some "bar", none, .Normal⟩,
   ⟨"deps/bar.pdb", none, none, .DebugInfo⟩]

/-- A Check-mode unit of the same package and target used in witnesses. -/
def u0check : Unit :=
  { pkg := "foo v1.0.0", target := t0, profile := 3, mode := .Check,
    kind := .Host, requires_upstream_objects := false }

theorem splitSlash_no_slash (l : List Char) (h : '/' ∉ l) : splitSlash l = [l] := by
  induction l with
  | nil => rfl
  | cons c cs ih =>
    have hc : ¬(c = '/') := fun e => h (List.mem_cons.2 (Or.inl e.symm))
    have hcs : '/' ∉ cs := fun m => h (List.mem_cons_of_mem c m)
    simp only [splitSlash, if_neg hc, ih hcs]

theorem splitSlash_sep (a rest : List Char) (h : '/' ∉ a) :
    splitSlash (a ++ '/' :: rest) = a :: splitSlash rest := by
  induction a with
  | nil => simp [splitSlash]
  | cons c cs ih =>
    have hc : ¬(c = '/') := fun e => h (List.mem_cons.2 (Or.inl e.symm))
    have hcs : '/' ∉ cs := fun m => h (List.mem_cons_of_mem c m)
    simp only [List.cons_append, splitSlash, if_neg hc, List.append_eq, ih hcs]

@[simp] theorem is_doc_iff (m : CompileMode) : m.is_doc = true ↔ m = .Doc := by
  simp [CompileMode.is_doc]

@[simp] theorem is_doc_scrape_iff (m : CompileMode) :
    m.is_doc_scrape = true ↔ m = .DocScrape := by
  simp [CompileMode.is_doc_scrape]

@[simp] theorem is_check_iff (m : CompileMode) : m.is_check = true ↔ m = .Check := by
  simp [CompileMode.is_check]

@[simp] theorem is_run_custom_build_iff (m : CompileMode) :
    m.is_run_custom_build = true ↔ m = .RunCustomBuild := by
  simp [CompileMode.is_run_custom_build]

theorem mem_doc_matching (units : List Unit) (u c : Unit) :
    c ∈ doc_matching units u ↔
      c ∈ units ∧ u.pkg = c.pkg ∧ u.target = c.target ∧ ¬(c.mode = .DocScrape) := by
  simp [doc_matching, List.mem_filter, and_assoc, CompileMode.is_doc_scrape]

theorem mem_setInsert {α : Type} [DecidableEq α] (x y : α) (s : List α) :
    y ∈ setInsert x s ↔ y = x ∨ y ∈ s := by
  by_cases h : x ∈ s
  · simp only [setInsert, if_pos h]
    exact ⟨Or.inr, fun hy => hy.elim (fun e => e ▸ h) id⟩
  · simp [setInsert, if_neg h, or_comm]

theorem mem_rmeta_inner (k : Unit) (deps : List UnitDep) (acc : List Unit) (u : Unit) :
    (u ∈ deps.foldl
        (fun acc dep =>
          if only_requires_rmeta k dep.unit then setInsert dep.unit acc else acc)
        acc)
      ↔ u ∈ acc ∨ ∃ d, d ∈ deps ∧ d.unit = u ∧ only_requires_rmeta k d.unit = true := by
  induction deps generalizing acc with
  | nil => simp
  | cons d ds ih =>
    simp only [List.foldl_cons]
    by_cases h : only_requires_rmeta k d.unit = true
    · rw [if_pos h, ih]
      constructor
      · rintro (hi | ⟨e, he, heu, hP⟩)
        · rcases (mem_setInsert _ _ _).1 hi with rfl | hacc
          · exact Or.inr ⟨d, List.mem_cons_self d ds, rfl, h⟩
          · exact Or.inl hacc
        · exact Or.inr ⟨e, List.mem_cons_of_mem d he, heu, hP⟩
      · rintro (hacc | ⟨e, he, heu, hP⟩)
        · exact Or.inl ((mem_setInsert _ _ _).2 (Or.inr hacc))
        · rcases List.mem_cons.1 he with rfl | he
          · exact Or.inl ((mem_setInsert _ _ _).2 (Or.inl heu.symm))
          · exact Or.inr ⟨e, he, heu, hP⟩
    · rw [if_neg h, ih]
      constructor
      · rintro (hacc | ⟨e, he, heu, hP⟩)
        · exact Or.inl hacc
        · exact Or.inr ⟨e, List.mem_cons_of_mem d he, heu, hP⟩
      · rintro (hacc | ⟨e, he, heu, hP⟩)
        · exact Or.inl hacc
        · rcases List.mem_cons.1 he with rfl | he
          · exact absurd hP h
          · exact Or.inr ⟨e, he, heu, hP⟩

theorem mem_rmeta_outer (g : UnitGraph) (acc : List Unit) (u : Unit) :
    (u ∈ g.foldl
        (fun acc kd =>
          kd.2.foldl
            (fun acc dep =>
              if only_requires_rmeta kd.1 dep.unit then setInsert dep.unit acc else acc)
            acc)
        acc)
      ↔ u ∈ acc ∨ ∃ kd, kd ∈ g ∧ ∃ d, d ∈ kd.2 ∧ d.unit = u ∧
          only_requires_rmeta kd.1 d.unit = true := by
  induction g generalizing acc with
  | nil => simp
  | cons kd g ih =>
    simp only [List.foldl_cons]
    rw [ih]
    constructor
    · rintro (hi | ⟨e, he, hrest⟩)
      · rcases (mem_rmeta_inner kd.1 kd.2 acc u).1 hi with hacc | ⟨d, hd, hdu, hP⟩
        · exact Or.inl hacc
        · exact Or.inr ⟨kd, List.mem_cons_self kd g, d, hd, hdu, hP⟩
      · exact Or.inr ⟨e, List.mem_cons_of_mem kd he, hrest⟩
    · rintro (hacc | ⟨e, he, d, hd, hdu, hP⟩)
      · exact Or.inl ((mem_rmeta_inner kd.1 kd.2 acc u).2 (Or.inl hacc))
      · rcases List.mem_cons.1 he with rfl | he
        · exact Or.inl ((mem_rmeta_inner e.1 e.2 acc u).2 (Or.inr ⟨d, hd, hdu, hP⟩))
        · exact Or.inr ⟨e, he, d, hd, hdu, hP⟩

end Cargo

open Cargo

/-- C1: `only_requires_rmeta parent dep` holds iff parent is a Build-mode unit
not requiring upstream objects and dep is a Build-mode unit not requiring
upstream objects; and `record_units_requiring_metadata` returns exactly the
units `u` such that some edge `(p, u)` of the unit graph satisfies the
predicate. -/
theorem only_requires_rmeta_rmeta_required_spec :
    (∀ parent dep : Cargo.Unit, only_requires_rmeta parent dep = true ↔
        (parent.mode = CompileMode.Build ∧ parent.requires_upstream_objects = false ∧
         dep.mode = CompileMode.Build ∧ dep.requires_upstream_objects = false)) ∧
    (∀ (g : UnitGraph) (u : Cargo.Unit),
        u ∈ record_units_requiring_metadata g ↔
          ∃ p deps, (p, deps) ∈ g ∧ ∃ d, d ∈ deps ∧ d.unit = u ∧
            only_requires_rmeta p u = true) := by
  constructor
  · intro parent dep
    simp only [only_requires_rmeta, Bool.and_eq_true, Bool.not_eq_true',
      decide_eq_true_eq]
    tauto
  · intro g u
    rw [record_units_requiring_metadata, mem_rmeta_outer]
    simp only [List.not_mem_nil, false_or]
    constructor
    · rintro ⟨⟨p, deps⟩, hg, d, hd, hdu, hP⟩
      exact ⟨p, deps, hg, d, hd, hdu, hdu ▸ hP⟩
    · rintro ⟨p, deps, hg, d, hd, hdu, hP⟩
      exact ⟨⟨p, deps⟩, hg, d, hd, hdu, hdu.symm ▸ hP⟩

example : make_dep_path "ab" false = "2/ab" := by decide
example : make_dep_path "AbCd" false = "Ab/Cd/AbCd" := by decide
example : make_dep_path "abcĉ" true = "ab/cĉ" := by decide

/-- C5: `make_dep_path` shards by the number of user-perceived characters:
one character gives "1", two give "2", three give "3/<first>", four or more
give "<first-two>/<next-two>", and in full mode the whole name is appended
after a "/"; including the six concrete examples from the spec. -/
theorem make_dep_path_sharding :
    (∀ n : List Char, n.length = 1 → mdp n true = ['1']) ∧
    (∀ n : List Char, n.length = 2 → mdp n true = ['2']) ∧
    (∀ n : List Char, n.length = 3 → mdp n true = '3' :: '/' :: n.take 1) ∧
    (∀ n : List Char, 4 ≤ n.length →
      mdp n true = n.take 2 ++ '/' :: (n.drop 2).take 2) ∧
    (∀ n : List Char, n ≠ [] → mdp n false = mdp n true ++ '/' :: n) ∧
    make_dep_path "a" false = "1/a" ∧
    make_dep_path "ab" false = "2/ab" ∧
    make_dep_path "abc" false = "3/a/abc" ∧
    make_dep_path "AbCd" false = "Ab/Cd/AbCd" ∧
    make_dep_path "ĉa" true = "2" ∧
    make_dep_path "abcĉ" true = "ab/cĉ" := by
  refine ⟨?_, ?_, ?_, ?_, ?_, by decide, by decide, by decide, by decide,
    by decide, by decide⟩
  · intro n h
    obtain ⟨a, rfl⟩ := List.length_eq_one.1 h
    rfl
  · intro n h
    obtain ⟨a, b, rfl⟩ := List.length_eq_two.1 h
    rfl
  · intro n h
    obtain ⟨a, b, c, rfl⟩ := List.length_eq_three.1 h
    rfl
  · intro n
    match n with
    | [] => intro h; simp at h
    | [_] => intro h; simp at h
    | [_, _] => intro h; simp at h
    | [_, _, _] => intro h; simp at h
    | _ :: _ :: _ :: _ :: _ => intro _; rfl
  · intro n
    match n with
    | [] => intro h; exact absurd rfl h
    | [_] => intro _; rfl
    | [_, _] => intro _; rfl
    | [_, _, _] => intro _; rfl
    | _ :: _ :: _ :: _ :: _ => intro _; rfl

/-- Witness for `make_dep_path_sharding`: each universally quantified clause
instantiated at a concrete dependency name, hypotheses discharged. -/
theorem make_dep_path_sharding_witness :
    mdp ['a'] true = ['1'] ∧
    mdp ['a', 'b'] true = ['2'] ∧
    mdp ['a', 'b', 'c'] true = '3' :: '/' :: (['a', 'b', 'c'].take 1) ∧
    mdp ['a', 'b', 'c', 'd'] true =
      ['a', 'b', 'c', 'd'].take 2 ++ '/' :: (['a', 'b', 'c', 'd'].drop 2).take 2 ∧
    mdp ['a', 'b', 'c'] false = mdp ['a', 'b', 'c'] true ++ '/' :: ['a', 'b', 'c'] :=
  ⟨make_dep_path_sharding.1 ['a'] (by decide),
   make_dep_path_sharding.2.1 ['a', 'b'] (by decide),
   make_dep_path_sharding.2.2.1 ['a', 'b', 'c'] (by decide),
   make_dep_path_sharding.2.2.2.1 ['a', 'b', 'c', 'd'] (by decide),
   make_dep_path_sharding.2.2.2.2.1 ['a', 'b', 'c'] (by decide)⟩

/-- C6: for a non-empty dependency name with no "/" character, splitting
`make_dep_path name false` on "/" gives the name itself as the last segment,
and the preceding segments joined by "/" equal `make_dep_path name true`. -/
theorem make_dep_path_roundtrip :
    ∀ s : String, s.toList ≠ [] → '/' ∉ s.toList →
      (splitSlash (make_dep_path s false).toList).getLast? = some s.toList ∧
      joinSlash ((splitSlash (make_dep_path s false).toList).dropLast) =
        (make_dep_path s true).toList := by
  intro s
  show s.toList ≠ [] → '/' ∉ s.toList →
    (splitSlash (mdp s.toList false)).getLast? = some s.toList ∧
    joinSlash ((splitSlash (mdp s.toList false)).dropLast) = mdp s.toList true
  generalize s.toList = n
  match n with
  | [] => intro h _; exact absurd rfl h
  | [a] =>
    intro _ hns
    have hsplit : splitSlash (mdp [a] false) = [['1'], [a]] := by
      show splitSlash (['1'] ++ '/' :: [a]) = _
      rw [splitSlash_sep _ _ (by decide), splitSlash_no_slash [a] hns]
    rw [hsplit]; exact ⟨rfl, rfl⟩
  | [a, b] =>
    intro _ hns
    have hsplit : splitSlash (mdp [a, b] false) = [['2'], [a, b]] := by
      show splitSlash (['2'] ++ '/' :: [a, b]) = _
      rw [splitSlash_sep _ _ (by decide), splitSlash_no_slash [a, b] hns]
    rw [hsplit]; exact ⟨rfl, rfl⟩
  | [a, b, c] =>
    intro _ hns
    have ha : ('/' : Char) ∉ [a] := by
      intro m
      rw [List.mem_singleton] at m
      exact hns (by rw [m]; exact List.mem_cons_self a [b, c])
    have hsplit : splitSlash (mdp [a, b, c] false) = [['3'], [a], [a, b, c]] := by
      show splitSlash (['3'] ++ '/' :: ([a] ++ '/' :: [a, b, c])) = _
      rw [splitSlash_sep _ _ (by decide), splitSlash_sep _ _ ha,
        splitSlash_no_slash [a, b, c] hns]
    rw [hsplit]; exact ⟨rfl, rfl⟩
  | a :: b :: c :: d :: r =>
    intro _ hns
    have hmem := hns
    simp only [List.mem_cons, not_or] at hmem
    have hab : ('/' : Char) ∉ [a, b] := by
      simp only [List.mem_cons, not_or, List.not_mem_nil, not_false_iff, and_true]
      exact ⟨hmem.1, hmem.2.1⟩
    have hcd : ('/' : Char) ∉ [c, d] := by
      simp only [List.mem_cons, not_or, List.not_mem_nil, not_false_iff, and_true]
      exact ⟨hmem.2.2.1, hmem.2.2.2.1⟩
    have hsplit : splitSlash (mdp (a :: b :: c :: d :: r) false) =
        [[a, b], [c, d], a :: b :: c :: d :: r] := by
      show splitSlash ([a, b] ++ '/' :: ([c, d] ++ '/' :: (a :: b :: c :: d :: r))) = _
      rw [splitSlash_sep _ _ hab, splitSlash_sep _ _ hcd,
        splitSlash_no_slash _ hns]
    rw [hsplit]; exact ⟨rfl, rfl⟩

/-- Witness for `make_dep_path_roundtrip` at the concrete name "abc". -/
theorem make_dep_path_roundtrip_witness :
    (splitSlash (make_dep_path "abc" false).toList).getLast? = some "abc".toList ∧
    joinSlash ((splitSlash (make_dep_path "abc" false).toList).dropLast) =
      (make_dep_path "abc" true).toList :=
  make_dep_path_roundtrip "abc" (by decide) (by decide)

/-- C3: every Doc or DocScrape unit of the graph is mapped to the metadata of
a matching Check-mode unit (same package and target) when one exists, else to
the metadata of a matching Doc-mode unit when one exists, else to its own
metadata. -/
theorem compute_metadata_for_doc_units_spec :
    ∀ (units : List Cargo.Unit) (md : Cargo.Unit → Metadata) (u : Cargo.Unit),
      u ∈ units → (u.mode = CompileMode.Doc ∨ u.mode = CompileMode.DocScrape) →
      ∃ m, (u, m) ∈ compute_metadata_for_doc_units units md ∧
        ((∃ c, c ∈ doc_matching units u ∧ c.mode = CompileMode.Check) →
          ∃ c, c ∈ doc_matching units u ∧ c.mode = CompileMode.Check ∧ m = md c) ∧
        ((¬ ∃ c, c ∈ doc_matching units u ∧ c.mode = CompileMode.Check) →
         (∃ d, d ∈ doc_matching units u ∧ d.mode = CompileMode.Doc) →
          ∃ d, d ∈ doc_matching units u ∧ d.mode = CompileMode.Doc ∧ m = md d) ∧
        ((¬ ∃ c, c ∈ doc_matching units u ∧ c.mode = CompileMode.Check) →
         (¬ ∃ d, d ∈ doc_matching units u ∧ d.mode = CompileMode.Doc) →
          m = md u) := by
  intro units md u hu hmode
  have hguard : (!u.mode.is_doc && !u.mode.is_doc_scrape) = false := by
    rcases hmode with h | h <;> simp [h, CompileMode.is_doc, CompileMode.is_doc_scrape]
  cases hfc : (doc_matching units u).find? (fun other => other.mode.is_check) with
  | some c =>
    refine ⟨md c, ?_, ?_, ?_, ?_⟩
    · exact List.mem_filterMap.2 ⟨u, hu, by
        simp only [hguard, Bool.false_eq_true, if_false, hfc]⟩
    · intro _
      exact ⟨c, List.mem_of_find?_eq_some hfc, by
        have := List.find?_some hfc
        simpa using this, rfl⟩
    · intro hno _
      exact absurd ⟨c, List.mem_of_find?_eq_some hfc, by
        have := List.find?_some hfc
        simpa using this⟩ hno
    · intro hno _
      exact absurd ⟨c, List.mem_of_find?_eq_some hfc, by
        have := List.find?_some hfc
        simpa using this⟩ hno
  | none =>
    have hnock : ¬ ∃ c, c ∈ doc_matching units u ∧ c.mode = CompileMode.Check := by
      rintro ⟨c, hc, hcm⟩
      have := List.find?_eq_none.1 hfc c hc
      simp [hcm] at this
    cases hfd : (doc_matching units u).find? (fun other => other.mode.is_doc) with
    | some d =>
      refine ⟨md d, ?_, ?_, ?_, ?_⟩
      · exact List.mem_filterMap.2 ⟨u, hu, by
          simp only [hguard, Bool.false_eq_true, if_false, hfc, hfd]⟩
      · intro hck; exact absurd hck hnock
      · intro _ _
        exact ⟨d, List.mem_of_find?_eq_some hfd, by
          have := List.find?_some hfd
          simpa using this, rfl⟩
      · intro _ hno
        exact absurd ⟨d, List.mem_of_find?_eq_some hfd, by
          have := List.find?_some hfd
          simpa using this⟩ hno
    | none =>
      refine ⟨md u, ?_, ?_, ?_, ?_⟩
      · exact List.mem_filterMap.2 ⟨u, hu, by
          simp only [hguard, Bool.false_eq_true, if_false, hfc, hfd]⟩
      · intro hck; exact absurd hck hnock
      · intro _ hd
        rcases hd with ⟨d, hdm, hdmode⟩
        have := List.find?_eq_none.1 hfd d hdm
        simp [hdmode] at this
      · intro _ _; rfl

/-- Witness for `compute_metadata_for_doc_units_spec`: a graph with one Doc
unit and one Check unit of the same package and target. -/
theorem compute_metadata_for_doc_units_witness :
    ∃ m, (u0doc, m) ∈
        compute_metadata_for_doc_units [u0doc, u0check] (fun u => u.profile) ∧
      ((∃ c, c ∈ doc_matching [u0doc, u0check] u0doc ∧ c.mode = CompileMode.Check) →
        ∃ c, c ∈ doc_matching [u0doc, u0check] u0doc ∧ c.mode = CompileMode.Check ∧
          m = c.profile) ∧
      ((¬ ∃ c, c ∈ doc_matching [u0doc, u0check] u0doc ∧ c.mode = CompileMode.Check) →
       (∃ d, d ∈ doc_matching [u0doc, u0check] u0doc ∧ d.mode = CompileMode.Doc) →
        ∃ d, d ∈ doc_matching [u0doc, u0check] u0doc ∧ d.mode = CompileMode.Doc ∧
          m = d.profile) ∧
      ((¬ ∃ c, c ∈ doc_matching [u0doc, u0check] u0doc ∧ c.mode = CompileMode.Check) →
       (¬ ∃ d, d ∈ doc_matching [u0doc, u0check] u0doc ∧ d.mode = CompileMode.Doc) →
        m = u0doc.profile) :=
  compute_metadata_for_doc_units_spec [u0doc, u0check] (fun u => u.profile) u0doc
    (List.mem_cons_self _ _) (Or.inl rfl)

/-- C4: `BuildRunner::new` uses the environment jobserver when present;
otherwise it creates a client with `jobs` tokens and immediately acquires one
before returning, and a failed creation yields the fatal error with context
"failed to create jobserver". -/
theorem new_jobserver_spec :
    (∀ (c : Client) (jobs : Nat) (osNew : OsNew),
        new_jobserver (some c) jobs osNew = .ok c) ∧
    (∀ jobs : Nat, 0 < jobs →
        new_jobserver none jobs .ok = .ok ⟨jobs - 1⟩) ∧
    (∀ (jobs : Nat) (e : String),
        new_jobserver none jobs (.fail e) =
          .error ("failed to create jobserver: " ++ e)) := by
  refine ⟨fun c jobs o => rfl, ?_, fun jobs e => rfl⟩
  intro jobs h
  have hne : ¬(jobs = 0) := Nat.pos_iff_ne_zero.1 h
  simp [new_jobserver, Client.acquire_raw, hne]

/-- Witness for `new_jobserver_spec`: four configured jobs give a fresh
client that already holds one of its four tokens. -/
theorem new_jobserver_witness :
    new_jobserver none 4 .ok = .ok ⟨3⟩ :=
  new_jobserver_spec.2.1 4 (by decide)

theorem duLoop_err : ∀ (items : List WalkItem) (total : Nat),
    (∃ it, it ∈ items ∧ ∃ e, it = .error e) →
    ∃ e, duLoop items total = .error e := by
  intro items
  induction items with
  | nil =>
    intro total h
    rcases h with ⟨it, hmem, _⟩
    simp at hmem
  | cons it rest ih =>
    intro total h
    cases it with
    | error e => exact ⟨e, rfl⟩
    | ok m =>
      rcases h with ⟨it2, hmem, e, he⟩
      rcases List.mem_cons.1 hmem with rfl | hmem2
      · exact Except.noConfusion he
      · exact ih _ ⟨it2, hmem2, e, he⟩

theorem duLoop_ok : ∀ (items : List WalkItem) (total : Nat), total < 2 ^ 64 →
    (∀ it, it ∈ items → ∃ m, it = .ok m) →
    duLoop items total = .ok ((total + itemsSize items) % 2 ^ 64) := by
  intro items
  induction items with
  | nil =>
    intro total hlt _
    have h0 : itemsSize ([] : List WalkItem) = 0 := rfl
    rw [h0, Nat.add_zero, Nat.mod_eq_of_lt hlt]
    rfl
  | cons it rest ih =>
    intro total hlt h
    cases it with
    | error e =>
      exfalso
      obtain ⟨m, hm⟩ := h _ (List.mem_cons_self _ _)
      exact Except.noConfusion hm
    | ok m =>
      have hrest : ∀ it, it ∈ rest → ∃ m, it = .ok m :=
        fun it hit => h it (List.mem_cons_of_mem _ hit)
      by_cases hf : m.is_file = true
      · have step : duLoop (Except.ok m :: rest) total =
            duLoop rest ((total + m.len) % 2 ^ 64) := by
          simp [duLoop, hf]
        rw [step, ih _ (Nat.mod_lt _ (by norm_num)) hrest]
        have hsz : itemsSize (Except.ok m :: rest) = m.len + itemsSize rest := by
          simp [itemsSize, List.filterMap_cons, hf]
        rw [hsz, Nat.mod_add_mod, Nat.add_assoc]
      · have hf2 : m.is_file = false := by
          cases hb : m.is_file
          · rfl
          · exact absurd hb hf
        have step : duLoop (Except.ok m :: rest) total = duLoop rest total := by
          simp [duLoop, hf2]
        rw [step, ih _ hlt hrest]
        have hsz : itemsSize (Except.ok m :: rest) = itemsSize rest := by
          simp [itemsSize, List.filterMap_cons, hf2]
        rw [hsz]

/-- Counterexample to C9 as stated: two selected regular files of `2 ^ 63`
bytes each make the u64 total wrap to 0, so `du` returns Ok 0 while the sum
of the byte sizes is `2 ^ 64`. -/
theorem du_sum_wraps :
    du "root" [⟨"a", Except.ok ⟨true, 2 ^ 63⟩⟩, ⟨"b", Except.ok ⟨true, 2 ^ 63⟩⟩]
        trueMatcher [] none = .ok 0 ∧
    totalSize [⟨"a", Except.ok ⟨true, 2 ^ 63⟩⟩, ⟨"b", Except.ok ⟨true, 2 ^ 63⟩⟩] =
      2 ^ 64 := by
  constructor
  · rfl
  · rfl

/-- C9 (amended: the Ok value is the sum reduced modulo `2 ^ 64`, because the
u64 accumulator wraps): `du` sums the byte sizes of exactly the regular files
selected by the patterns, selects everything when the patterns are empty, and
turns any override-building or walk error into an error with context
"failed to walk `<path>`". -/
theorem du_spec :
    ∀ (path : String) (fs : List FSEntry) (matcher : List String → String → Bool)
      (patterns : List String),
      ((∀ en, en ∈ fs → selects matcher patterns en.path = true →
          ∃ m, en.item = Except.ok m) →
        du path fs matcher patterns none =
          .ok (totalSize (fs.filter (fun en => selects matcher patterns en.path))
            % 2 ^ 64)) ∧
      ((∃ en, en ∈ fs ∧ selects matcher patterns en.path = true ∧
          ∃ e, en.item = Except.error e) →
        ∃ e, du path fs matcher patterns none =
          .error ("failed to walk `" ++ path ++ "`: " ++ e)) ∧
      (∀ e, du path fs matcher patterns (some e) =
        .error ("failed to walk `" ++ path ++ "`: " ++ e)) ∧
      (∀ p, patterns = [] → selects matcher patterns p = true) := by
  intro path fs matcher patterns
  refine ⟨?_, ?_, fun e => rfl, fun p hp => by simp [selects, hp]⟩
  · intro h
    have hitems : ∀ it,
        it ∈ (fs.filter (fun en => selects matcher patterns en.path)).map
          (fun en => en.item) → ∃ m, it = .ok m := by
      intro it hit
      rcases List.mem_map.1 hit with ⟨en, hen, rfl⟩
      have hf := List.mem_filter.1 hen
      exact h en hf.1 hf.2
    have hloop := duLoop_ok _ 0 (by norm_num) hitems
    have hdu : du path fs matcher patterns none =
        match duLoop ((fs.filter (fun en => selects matcher patterns en.path)).map
          (fun en => en.item)) 0 with
        | .error e => .error ("failed to walk `" ++ path ++ "`: " ++ e)
        | .ok n => .ok n := rfl
    rw [hdu, hloop]
    simp [totalSize, Nat.zero_add]
  · intro h
    rcases h with ⟨en, hen, hsel, e, he⟩
    obtain ⟨e2, he2⟩ := duLoop_err
      ((fs.filter (fun en => selects matcher patterns en.path)).map
        (fun en => en.item)) 0
      ⟨en.item, List.mem_map_of_mem _ (List.mem_filter.2 ⟨hen, hsel⟩), e, he⟩
    have hdu : du path fs matcher patterns none =
        match duLoop ((fs.filter (fun en => selects matcher patterns en.path)).map
          (fun en => en.item)) 0 with
        | .error e => .error ("failed to walk `" ++ path ++ "`: " ++ e)
        | .ok n => .ok n := rfl
    rw [hdu, he2]
    exact ⟨e2, rfl⟩

/-- Witness for `du_spec`: one regular 5-byte file and one directory under
the root, no patterns; `du` returns 5. -/
theorem du_spec_witness :
    du "root" [⟨"a", Except.ok ⟨true, 5⟩⟩, ⟨"d", Except.ok ⟨false, 7⟩⟩]
        trueMatcher [] none =
      .ok (totalSize ([⟨"a", Except.ok ⟨true, 5⟩⟩, ⟨"d", Except.ok ⟨false, 7⟩⟩].filter
        (fun en => selects trueMatcher [] en.path)) % 2 ^ 64) :=
  (du_spec "root" [⟨"a", Except.ok ⟨true, 5⟩⟩, ⟨"d", Except.ok ⟨false, 7⟩⟩]
    trueMatcher []).1
    (by
      intro en hen hsel
      rcases List.mem_cons.1 hen with rfl | hen2
      · exact ⟨⟨true, 5⟩, rfl⟩
      · rcases List.mem_cons.1 hen2 with rfl | hen3
        · exact ⟨⟨false, 7⟩, rfl⟩
        · simp at hen3)

/-- Counterexample to C7 as stated: on the triple "x-apple-msvc" (which both
contains "-apple-" and ends with "-msvc") with a Bin target, the source emits
only the `.dSYM` extra file, while the table read with independent rows also
demands `.pdb`. -/
theorem file_types_ne_table :
    file_types "bin" .Normal .Bin "x-apple-msvc" (some ("", "")) ≠
      file_types_table "bin" .Normal .Bin "x-apple-msvc" (some ("", "")) := by
  decide

/-- C7 (amended: the `.pdb` row applies only when the triple does not contain
"-apple-", because the source checks apple before msvc): `file_types` returns
the primary file type followed by exactly the table extras, and
`FileType.filename stem` is prefix + stem + suffix with hyphens replaced by
underscores in the stem iff the flag is set. -/
theorem file_types_spec :
    (∀ (crate_type : String) (flavor : FileFlavor) (kind : TargetKind)
        (target_triple : String) (info : Option (String × String)),
        file_types crate_type flavor kind target_triple info =
          file_types_table_amended crate_type flavor kind target_triple info) ∧
    (∀ (t : FileType) (stem : String),
        t.filename stem =
          t.pre ++ (if t.should_replace_hyphens then replaceHyphens stem else stem)
            ++ t.suffix) := by
  constructor
  · intro crate_type flavor kind target_triple info
    cases info with
    | none => rfl
    | some p =>
      obtain ⟨pre, suffix⟩ := p
      by_cases h1 : (sEndsWith target_triple "pc-windows-msvc"
          && sEndsWith crate_type "dylib" && suffix = ".dll") = true <;>
        by_cases h2 : (sStartsWith target_triple "wasm32-" && crate_type = "bin"
          && suffix = ".js") = true <;>
        by_cases hk : kind = TargetKind.Bin <;>
        by_cases ha : sContains target_triple "-apple-" = true <;>
        by_cases hm : sEndsWith target_triple "-msvc" = true <;>
        simp [file_types, file_types_table, file_types_table_amended,
          h1, h2, hk, ha, hm]
  · intro t stem
    rfl

theorem foldl_preserve {α β : Type} (f : β → α → β) (P : β → Prop) :
    ∀ (l : List α) (init : β), P init → (∀ b a, a ∈ l → P b → P (f b a)) →
      P (l.foldl f init) := by
  intro l
  induction l with
  | nil => intro init h0 _; exact h0
  | cons a l ih =>
    intro init h0 hstep
    exact ih (f init a) (hstep init a (List.mem_cons_self a l) h0)
      (fun b x hx hb => hstep b x (List.mem_cons_of_mem a hx) hb)

theorem collect_output_skip (u : Cargo.Unit) (st : CollectState) (o : OutputFile)
    (h : o.flavor = FileFlavor.DebugInfo ∨ o.flavor = FileFlavor.Auxiliary) :
    collect_output u st o = st := by
  unfold collect_output
  rw [if_pos h]

theorem collect_output_test (u : Cargo.Unit) (st : CollectState) (o : OutputFile)
    (hq : ¬(o.flavor = FileFlavor.DebugInfo ∨ o.flavor = FileFlavor.Auxiliary))
    (hm : u.mode = CompileMode.Test) :
    collect_output u st o = { st with tests := st.tests ++ [(u, o.path)] } := by
  unfold collect_output
  rw [if_neg hq, if_pos hm]

theorem collect_output_bin (u : Cargo.Unit) (st : CollectState) (o : OutputFile)
    (hq : ¬(o.flavor = FileFlavor.DebugInfo ∨ o.flavor = FileFlavor.Auxiliary))
    (hm : ¬(u.mode = CompileMode.Test)) (hx : u.target.is_executable = true) :
    collect_output u st o = { st with binaries := st.binaries ++ [(u, o.bin_dst)] } := by
  unfold collect_output
  rw [if_neg hq, if_neg hm, if_pos hx]

theorem inner_fold_test (u : Cargo.Unit) (hm : u.mode = CompileMode.Test) :
    ∀ (os : List OutputFile) (st : CollectState),
      os.foldl (collect_output u) st =
        { st with tests :=
            st.tests ++ (os.filter qualifying).map (fun o => (u, o.path)) } := by
  intro os
  induction os with
  | nil => intro st; simp
  | cons o os ih =>
    intro st
    by_cases hq : o.flavor = FileFlavor.DebugInfo ∨ o.flavor = FileFlavor.Auxiliary
    · have hq2 : qualifying o = false := by simp [qualifying, hq]
      rw [List.foldl_cons, collect_output_skip u st o hq, ih]
      simp [List.filter_cons, hq2]
    · have hq2 : qualifying o = true := by
        simp only [qualifying, decide_eq_true_eq]; exact hq
      rw [List.foldl_cons, collect_output_test u st o hq hm, ih]
      simp [List.filter_cons, hq2]

theorem inner_fold_bin (u : Cargo.Unit) (hm : ¬(u.mode = CompileMode.Test))
    (hx : u.target.is_executable = true) :
    ∀ (os : List OutputFile) (st : CollectState),
      os.foldl (collect_output u) st =
        { st with binaries :=
            st.binaries ++ (os.filter qualifying).map (fun o => (u, o.bin_dst)) } := by
  intro os
  induction os with
  | nil => intro st; simp
  | cons o os ih =>
    intro st
    by_cases hq : o.flavor = FileFlavor.DebugInfo ∨ o.flavor = FileFlavor.Auxiliary
    · have hq2 : qualifying o = false := by simp [qualifying, hq]
      rw [List.foldl_cons, collect_output_skip u st o hq, ih]
      simp [List.filter_cons, hq2]
    · have hq2 : qualifying o = true := by
        simp only [qualifying, decide_eq_true_eq]; exact hq
      rw [List.foldl_cons, collect_output_bin u st o hq hm hx, ih]
      simp [List.filter_cons, hq2]

theorem collect_output_filter_ne (v u : Cargo.Unit) (hne : ¬(v = u))
    (st : CollectState) (o : OutputFile) :
    ((collect_output v st o).tests.filter (fun e => e.1 = u) =
        st.tests.filter (fun e => e.1 = u)) ∧
    ((collect_output v st o).binaries.filter (fun e => e.1 = u) =
        st.binaries.filter (fun e => e.1 = u)) ∧
    ((collect_output v st o).cdylibs.filter (fun e => e.1 = u) =
        st.cdylibs.filter (fun e => e.1 = u)) := by
  unfold collect_output
  by_cases h1 : o.flavor = FileFlavor.DebugInfo ∨ o.flavor = FileFlavor.Auxiliary
  · rw [if_pos h1]; exact ⟨rfl, rfl, rfl⟩
  · rw [if_neg h1]
    by_cases h2 : v.mode = CompileMode.Test
    · rw [if_pos h2]
      exact ⟨by simp [List.filter_append, hne], rfl, rfl⟩
    · rw [if_neg h2]
      by_cases h3 : v.target.is_executable = true
      · rw [if_pos h3]
        exact ⟨rfl, by simp [List.filter_append, hne], rfl⟩
      · rw [if_neg h3]
        by_cases h4 : v.target.is_cdylib = true ∧ ∀ e ∈ st.cdylibs, ¬(e.1 = v)
        · rw [if_pos h4]
          exact ⟨rfl, rfl, by simp [List.filter_append, hne]⟩
        · rw [if_neg h4]
          exact ⟨rfl, rfl, rfl⟩

theorem fold_filter_ne (u : Cargo.Unit) (outputs : Cargo.Unit → List OutputFile) :
    ∀ (l : List Cargo.Unit) (st : CollectState), u ∉ l →
      ((l.foldl (fun st unit => (outputs unit).foldl (collect_output unit) st)
          st).tests.filter (fun e => e.1 = u) =
        st.tests.filter (fun e => e.1 = u)) ∧
      ((l.foldl (fun st unit => (outputs unit).foldl (collect_output unit) st)
          st).binaries.filter (fun e => e.1 = u) =
        st.binaries.filter (fun e => e.1 = u)) ∧
      ((l.foldl (fun st unit => (outputs unit).foldl (collect_output unit) st)
          st).cdylibs.filter (fun e => e.1 = u) =
        st.cdylibs.filter (fun e => e.1 = u)) := by
  intro l
  induction l with
  | nil => intro st _; exact ⟨rfl, rfl, rfl⟩
  | cons v l ih =>
    intro st hu
    have hvne : ¬(v = u) := fun e => hu (e ▸ List.mem_cons_self v l)
    have hul : u ∉ l := fun m => hu (List.mem_cons_of_mem v m)
    have hinner : ∀ (st2 : CollectState),
        (((outputs v).foldl (collect_output v) st2).tests.filter (fun e => e.1 = u) =
          st2.tests.filter (fun e => e.1 = u)) ∧
        (((outputs v).foldl (collect_output v) st2).binaries.filter (fun e => e.1 = u) =
          st2.binaries.filter (fun e => e.1 = u)) ∧
        (((outputs v).foldl (collect_output v) st2).cdylibs.filter (fun e => e.1 = u) =
          st2.cdylibs.filter (fun e => e.1 = u)) := by
      intro st2
      refine foldl_preserve (collect_output v)
        (fun s => (s.tests.filter (fun e => e.1 = u) =
            st2.tests.filter (fun e => e.1 = u)) ∧
          (s.binaries.filter (fun e => e.1 = u) =
            st2.binaries.filter (fun e => e.1 = u)) ∧
          (s.cdylibs.filter (fun e => e.1 = u) =
            st2.cdylibs.filter (fun e => e.1 = u)))
        (outputs v) st2 ⟨rfl, rfl, rfl⟩ ?_
      intro b o _ hb
      obtain ⟨hb1, hb2, hb3⟩ := hb
      obtain ⟨hc1, hc2, hc3⟩ := collect_output_filter_ne v u hvne b o
      exact ⟨hc1.trans hb1, hc2.trans hb2, hc3.trans hb3⟩
    rw [List.foldl_cons]
    obtain ⟨ht, hbn, hc⟩ := ih ((outputs v).foldl (collect_output v) st) hul
    obtain ⟨it, ibn, ic⟩ := hinner st
    exact ⟨ht.trans it, hbn.trans ibn, hc.trans ic⟩

theorem collect_output_cdylib_le (v u : Cargo.Unit) (st : CollectState)
    (o : OutputFile)
    (h : (st.cdylibs.filter (fun e => e.1 = u)).length ≤ 1) :
    ((collect_output v st o).cdylibs.filter (fun e => e.1 = u)).length ≤ 1 := by
  unfold collect_output
  by_cases h1 : o.flavor = FileFlavor.DebugInfo ∨ o.flavor = FileFlavor.Auxiliary
  · rw [if_pos h1]; exact h
  · rw [if_neg h1]
    by_cases h2 : v.mode = CompileMode.Test
    · rw [if_pos h2]; exact h
    · rw [if_neg h2]
      by_cases h3 : v.target.is_executable = true
      · rw [if_pos h3]; exact h
      · rw [if_neg h3]
        by_cases h4 : v.target.is_cdylib = true ∧ ∀ e ∈ st.cdylibs, ¬(e.1 = v)
        · rw [if_pos h4]
          show ((st.cdylibs ++ [(v, o.bin_dst)]).filter (fun e => e.1 = u)).length ≤ 1
          rw [List.filter_append]
          by_cases hvu : v = u
          · subst hvu
            have hnil : st.cdylibs.filter (fun e => e.1 = v) = [] :=
              List.filter_eq_nil_iff.2 (fun e he => by simpa using h4.2 e he)
            rw [hnil]
            simp
          · have hone : List.filter (fun e => decide (e.1 = u)) [(v, o.bin_dst)] = [] := by
              simp [hvu]
            rw [hone, List.append_nil]
            exact h
        · rw [if_neg h4]; exact h

theorem collect_cdylib_once (roots : List Cargo.Unit)
    (outputs : Cargo.Unit → List OutputFile) (u : Cargo.Unit) :
    ((collect_root_outputs roots outputs).cdylibs.filter
        (fun e => e.1 = u)).length ≤ 1 := by
  unfold collect_root_outputs
  refine foldl_preserve
    (fun st unit => (outputs unit).foldl (collect_output unit) st)
    (fun s : CollectState => (s.cdylibs.filter (fun e => e.1 = u)).length ≤ 1)
    roots ⟨[], [], []⟩ (by simp) ?_
  intro b v _ hb
  refine foldl_preserve (collect_output v)
    (fun s : CollectState => (s.cdylibs.filter (fun e => e.1 = u)).length ≤ 1)
    (outputs v) b hb ?_
  intro b2 o _ hb2
  exact collect_output_cdylib_le v u b2 o hb2

theorem collect_prov (roots : List Cargo.Unit)
    (outputs : Cargo.Unit → List OutputFile) :
    (∀ u p, (u, p) ∈ (collect_root_outputs roots outputs).tests →
      ∃ o, o ∈ outputs u ∧ qualifying o = true ∧ p = o.path) ∧
    (∀ u p, (u, p) ∈ (collect_root_outputs roots outputs).binaries →
      ∃ o, o ∈ outputs u ∧ qualifying o = true ∧ p = o.bin_dst) ∧
    (∀ u p, (u, p) ∈ (collect_root_outputs roots outputs).cdylibs →
      ∃ o, o ∈ outputs u ∧ qualifying o = true ∧ p = o.bin_dst) := by
  unfold collect_root_outputs
  refine foldl_preserve
    (fun st unit => (outputs unit).foldl (collect_output unit) st)
    (fun s : CollectState =>
      (∀ u p, (u, p) ∈ s.tests →
        ∃ o, o ∈ outputs u ∧ qualifying o = true ∧ p = o.path) ∧
      (∀ u p, (u, p) ∈ s.binaries →
        ∃ o, o ∈ outputs u ∧ qualifying o = true ∧ p = o.bin_dst) ∧
      (∀ u p, (u, p) ∈ s.cdylibs →
        ∃ o, o ∈ outputs u ∧ qualifying o = true ∧ p = o.bin_dst))
    roots ⟨[], [], []⟩ ⟨by simp, by simp, by simp⟩ ?_
  intro b v _ hb
  refine foldl_preserve (collect_output v)
    (fun s : CollectState =>
      (∀ u p, (u, p) ∈ s.tests →
        ∃ o, o ∈ outputs u ∧ qualifying o = true ∧ p = o.path) ∧
      (∀ u p, (u, p) ∈ s.binaries →
        ∃ o, o ∈ outputs u ∧ qualifying o = true ∧ p = o.bin_dst) ∧
      (∀ u p, (u, p) ∈ s.cdylibs →
        ∃ o, o ∈ outputs u ∧ qualifying o = true ∧ p = o.bin_dst))
    (outputs v) b hb ?_
  intro b2 o ho hb2
  obtain ⟨hbt, hbb, hbc⟩ := hb2
  unfold collect_output
  by_cases h1 : o.flavor = FileFlavor.DebugInfo ∨ o.flavor = FileFlavor.Auxiliary
  · rw [if_pos h1]; exact ⟨hbt, hbb, hbc⟩
  · have hq : qualifying o = true := by
      simp only [qualifying, decide_eq_true_eq]; exact h1
    rw [if_neg h1]
    by_cases h2 : v.mode = CompileMode.Test
    · rw [if_pos h2]
      refine ⟨?_, hbb, hbc⟩
      intro u p hp
      rcases List.mem_append.1 hp with hp | hp
      · exact hbt u p hp
      · have hp2 := List.mem_singleton.1 hp
        cases hp2
        exact ⟨o, ho, hq, rfl⟩
    · rw [if_neg h2]
      by_cases h3 : v.target.is_executable = true
      · rw [if_pos h3]
        refine ⟨hbt, ?_, hbc⟩
        intro u p hp
        rcases List.mem_append.1 hp with hp | hp
        · exact hbb u p hp
        · have hp2 := List.mem_singleton.1 hp
          cases hp2
          exact ⟨o, ho, hq, rfl⟩
      · rw [if_neg h3]
        by_cases h4 : v.target.is_cdylib = true ∧ ∀ e ∈ b2.cdylibs, ¬(e.1 = v)
        · rw [if_pos h4]
          refine ⟨hbt, hbb, ?_⟩
          intro u p hp
          rcases List.mem_append.1 hp with hp | hp
          · exact hbc u p hp
          · have hp2 := List.mem_singleton.1 hp
            cases hp2
            exact ⟨o, ho, hq, rfl⟩
        · rw [if_neg h4]; exact ⟨hbt, hbb, hbc⟩

theorem collect_tests_count (roots : List Cargo.Unit)
    (outputs : Cargo.Unit → List OutputFile) (hnd : roots.Nodup)
    (u : Cargo.Unit) (hu : u ∈ roots) (hm : u.mode = CompileMode.Test) :
    ((collect_root_outputs roots outputs).tests.filter
        (fun e => e.1 = u)).length =
      ((outputs u).filter qualifying).length := by
  obtain ⟨l1, l2, rfl⟩ := List.append_of_mem hu
  rw [List.nodup_append] at hnd
  obtain ⟨hn1, hn2, hdisj⟩ := hnd
  have hu1 : u ∉ l1 := fun m => hdisj m (List.mem_cons_self u l2)
  have hu2 : u ∉ l2 := (List.nodup_cons.1 hn2).1
  have h1 := (fold_filter_ne u outputs l1 ⟨[], [], []⟩ hu1).1
  have h2 := inner_fold_test u hm (outputs u)
    (l1.foldl (fun st unit => (outputs unit).foldl (collect_output unit) st)
      ⟨[], [], []⟩)
  have h3 := (fold_filter_ne u outputs l2
    ((outputs u).foldl (collect_output u)
      (l1.foldl (fun st unit => (outputs unit).foldl (collect_output unit) st)
        ⟨[], [], []⟩)) hu2).1
  have hall : (((outputs u).filter qualifying).map
        (fun o => (u, o.path))).filter (fun e => e.1 = u) =
      ((outputs u).filter qualifying).map (fun o => (u, o.path)) := by
    refine List.filter_eq_self.2 ?_
    intro e he
    rcases List.mem_map.1 he with ⟨o, _, rfl⟩
    simp
  unfold collect_root_outputs
  simp only [List.foldl_append, List.foldl_cons]
  rw [h3, h2]
  show (List.filter (fun e => decide (e.1 = u))
      ((l1.foldl (fun st unit => (outputs unit).foldl (collect_output unit) st)
          ⟨[], [], []⟩).tests ++
        ((outputs u).filter qualifying).map (fun o => (u, o.path)))).length =
    ((outputs u).filter qualifying).length
  rw [List.filter_append, h1, hall]
  simp [List.length_map]

theorem collect_binaries_count (roots : List Cargo.Unit)
    (outputs : Cargo.Unit → List OutputFile) (hnd : roots.Nodup)
    (u : Cargo.Unit) (hu : u ∈ roots) (hm : ¬(u.mode = CompileMode.Test))
    (hx : u.target.is_executable = true) :
    ((collect_root_outputs roots outputs).binaries.filter
        (fun e => e.1 = u)).length =
      ((outputs u).filter qualifying).length := by
  obtain ⟨l1, l2, rfl⟩ := List.append_of_mem hu
  rw [List.nodup_append] at hnd
  obtain ⟨hn1, hn2, hdisj⟩ := hnd
  have hu1 : u ∉ l1 := fun m => hdisj m (List.mem_cons_self u l2)
  have hu2 : u ∉ l2 := (List.nodup_cons.1 hn2).1
  have h1 := (fold_filter_ne u outputs l1 ⟨[], [], []⟩ hu1).2.1
  have h2 := inner_fold_bin u hm hx (outputs u)
    (l1.foldl (fun st unit => (outputs unit).foldl (collect_output unit) st)
      ⟨[], [], []⟩)
  have h3 := (fold_filter_ne u outputs l2
    ((outputs u).foldl (collect_output u)
      (l1.foldl (fun st unit => (outputs unit).foldl (collect_output unit) st)
        ⟨[], [], []⟩)) hu2).2.1
  have hall : (((outputs u).filter qualifying).map
        (fun o => (u, o.bin_dst))).filter (fun e => e.1 = u) =
      ((outputs u).filter qualifying).map (fun o => (u, o.bin_dst)) := by
    refine List.filter_eq_self.2 ?_
    intro e he
    rcases List.mem_map.1 he with ⟨o, _, rfl⟩
    simp
  unfold collect_root_outputs
  simp only [List.foldl_append, List.foldl_cons]
  rw [h3, h2]
  show (List.filter (fun e => decide (e.1 = u))
      ((l1.foldl (fun st unit => (outputs unit).foldl (collect_output unit) st)
          ⟨[], [], []⟩).binaries ++
        ((outputs u).filter qualifying).map (fun o => (u, o.bin_dst)))).length =
    ((outputs u).filter qualifying).length
  rw [List.filter_append, h1, hall]
  simp [List.length_map]

/-- C10: in the Compilation assembly of `BuildRunner::compile`, DebugInfo and
Auxiliary outputs are never collected into tests, binaries or cdylibs;
cdylibs holds at most one entry per unit; and a Test-mode root contributes
one tests entry per qualifying output file, an executable non-Test root one
binaries entry per qualifying output file. -/
theorem compile_collect_spec :
    ∀ (roots : List Cargo.Unit) (outputs : Cargo.Unit → List OutputFile),
      ((∀ u p, (u, p) ∈ (collect_root_outputs roots outputs).tests →
          ∃ o, o ∈ outputs u ∧ qualifying o = true ∧ p = o.path) ∧
       (∀ u p, (u, p) ∈ (collect_root_outputs roots outputs).binaries →
          ∃ o, o ∈ outputs u ∧ qualifying o = true ∧ p = o.bin_dst) ∧
       (∀ u p, (u, p) ∈ (collect_root_outputs roots outputs).cdylibs →
          ∃ o, o ∈ outputs u ∧ qualifying o = true ∧ p = o.bin_dst)) ∧
      (∀ u, ((collect_root_outputs roots outputs).cdylibs.filter
          (fun e => e.1 = u)).length ≤ 1) ∧
      (roots.Nodup → ∀ u, u ∈ roots → u.mode = CompileMode.Test →
        ((collect_root_outputs roots outputs).tests.filter
            (fun e => e.1 = u)).length =
          ((outputs u).filter qualifying).length) ∧
      (roots.Nodup → ∀ u, u ∈ roots → ¬(u.mode = CompileMode.Test) →
        u.target.is_executable = true →
        ((collect_root_outputs roots outputs).binaries.filter
            (fun e => e.1 = u)).length =
          ((outputs u).filter qualifying).length) :=
  fun roots outputs =>
    ⟨collect_prov roots outputs,
     collect_cdylib_once roots outputs,
     fun hnd u hu hm => collect_tests_count roots outputs hnd u hu hm,
     fun hnd u hu hm hx => collect_binaries_count roots outputs hnd u hu hm hx⟩

/-- Witness for `compile_collect_spec`: a single Test-mode root with one
Normal and one DebugInfo output yields exactly one tests entry. -/
theorem compile_collect_spec_witness :
    ((collect_root_outputs [uTest] outFixed).tests.filter
        (fun e => e.1 = uTest)).length =
      ((outFixed uTest).filter qualifying).length :=
  (compile_collect_spec [uTest] outFixed).2.2.1 (by simp) uTest
    (List.mem_cons_self _ _) rfl

theorem stringToList_append (s t : String) :
    (s ++ t).toList = s.toList ++ t.toList :=
  String.data_append s t

theorem except_bind_ok {ε α β : Type} (x : Except ε α) (g : α → Except ε β)
    (v : β) (h : (x >>= g) = .ok v) : ∃ w, x = .ok w ∧ g w = .ok v := by
  cases x with
  | error e => simp [Bind.bind, Except.bind] at h
  | ok w => exact ⟨w, rfl, by simpa [Bind.bind, Except.bind] using h⟩

theorem assocInsert_none {κ ν : Type} [DecidableEq κ] (k : κ) (v : ν) :
    ∀ (m : List (κ × ν)), (∀ e ∈ m, ¬(e.1 = k)) →
      assocInsert k v m = (none, m ++ [(k, v)]) := by
  intro m
  induction m with
  | nil => intro _; rfl
  | cons e rest ih =>
    intro h
    have he : ¬(e.1 = k) := h e (List.mem_cons_self e rest)
    have hrest : ∀ e2 ∈ rest, ¬(e2.1 = k) :=
      fun e2 m2 => h e2 (List.mem_cons_of_mem e m2)
    simp only [assocInsert, if_neg he, ih hrest, List.cons_append]

theorem assocInsert_fst_some {κ ν : Type} [DecidableEq κ] (k : κ) (v : ν) :
    ∀ (m : List (κ × ν)), (∃ e ∈ m, e.1 = k) →
      ∃ w, (assocInsert k v m).1 = some w ∧ (k, w) ∈ m := by
  intro m
  induction m with
  | nil => rintro ⟨e, he, _⟩; simp at he
  | cons e rest ih =>
    rintro ⟨e2, he2, hk⟩
    by_cases he : e.1 = k
    · refine ⟨e.2, ?_, ?_⟩
      · simp only [assocInsert, if_pos he]
      · obtain ⟨a, b⟩ := e
        have : a = k := he
        subst this
        exact List.mem_cons_self _ _
    · rcases List.mem_cons.1 he2 with rfl | hmem
      · exact absurd hk he
      · obtain ⟨w, hw1, hw2⟩ := ih ⟨e2, hmem, hk⟩
        refine ⟨w, ?_, List.mem_cons_of_mem e hw2⟩
        simp only [assocInsert, if_neg he]
        exact hw1

theorem assocInsert_keys {κ ν : Type} [DecidableEq κ] (k : κ) (v : ν) :
    ∀ (m : List (κ × ν)) (q : κ),
      (∃ e ∈ (assocInsert k v m).2, e.1 = q) ↔ (q = k ∨ ∃ e ∈ m, e.1 = q) := by
  intro m
  induction m with
  | nil => intro q; simp [assocInsert, eq_comm]
  | cons e rest ih =>
    intro q
    by_cases he : e.1 = k
    · simp only [assocInsert, if_pos he]
      constructor
      · rintro ⟨e2, he2, hq⟩
        rcases List.mem_cons.1 he2 with rfl | hmem
        · exact Or.inl hq.symm
        · exact Or.inr ⟨e2, List.mem_cons_of_mem e hmem, hq⟩
      · rintro (rfl | ⟨e2, he2, hq⟩)
        · exact ⟨(q, v), List.mem_cons_self _ _, rfl⟩
        · rcases List.mem_cons.1 he2 with rfl | hmem
          · exact ⟨(k, v), List.mem_cons_self _ _, he ▸ hq⟩
          · exact ⟨e2, List.mem_cons_of_mem _ hmem, hq⟩
    · simp only [assocInsert, if_neg he]
      constructor
      · rintro ⟨e2, he2, hq⟩
        rcases List.mem_cons.1 he2 with rfl | hmem
        · exact Or.inr ⟨e2, List.mem_cons_self _ _, hq⟩
        · rcases (ih q).1 ⟨e2, hmem, hq⟩ with h | ⟨e3, hm3, hq3⟩
          · exact Or.inl h
          · exact Or.inr ⟨e3, List.mem_cons_of_mem _ hm3, hq3⟩
      · rintro (rfl | ⟨e2, he2, hq⟩)
        · obtain ⟨e3, hm3, hq3⟩ := (ih q).2 (Or.inl rfl)
          exact ⟨e3, List.mem_cons_of_mem _ hm3, hq3⟩
        · rcases List.mem_cons.1 he2 with rfl | hmem
          · exact ⟨e2, List.mem_cons_self _ _, hq⟩
          · obtain ⟨e3, hm3, hq3⟩ := (ih q).2 (Or.inr ⟨e2, hmem, hq⟩)
            exact ⟨e3, List.mem_cons_of_mem _ hm3, hq3⟩

theorem cc_insert_keys (u : Cargo.Unit) (p : String) (st : CCState) (q : String) :
    keyIn (cc_insert u p st) q ↔ (q = p ∨ keyIn st q) := by
  have hk := assocInsert_keys p u st.output_collisions q
  cases hins : assocInsert p u st.output_collisions with
  | mk o m =>
    rw [hins] at hk
    cases o with
    | some other =>
      simp only [keyIn, cc_insert, hins]
      simpa using hk
    | none =>
      simp only [keyIn, cc_insert, hins]
      simpa using hk

theorem cc_insert_warnings (u : Cargo.Unit) (p : String) (st : CCState) :
    ∃ w, (cc_insert u p st).warnings = st.warnings ++ w := by
  unfold cc_insert
  cases hins : assocInsert p u st.output_collisions with
  | mk o m =>
    cases o with
    | some other => exact ⟨[(u, other, p)], rfl⟩
    | none => exact ⟨[], (List.append_nil _).symm⟩

theorem cc_insert_warn_on_hit (u : Cargo.Unit) (p : String) (st : CCState)
    (h : keyIn st p) : ¬((cc_insert u p st).warnings = []) := by
  obtain ⟨w, hw1, _⟩ := assocInsert_fst_some p u st.output_collisions h
  unfold cc_insert
  cases hins : assocInsert p u st.output_collisions with
  | mk o m =>
    rw [hins] at hw1
    cases o with
    | none => exact absurd hw1 (by simp)
    | some other => simp

theorem cc_insert_docs (u : Cargo.Unit) (p : String) (st : CCState) :
    (cc_insert u p st).doc_libs = st.doc_libs ∧
    (cc_insert u p st).doc_bins = st.doc_bins := by
  unfold cc_insert
  cases hins : assocInsert p u st.output_collisions with
  | mk o m => cases o <;> exact ⟨rfl, rfl⟩

theorem nonempty_append {α : Type} (l w : List α) (h : ¬(l = [])) :
    ¬(l ++ w = []) := by
  intro h2
  exact h (List.append_eq_nil.1 h2).1

theorem process_output_keys (u : Cargo.Unit) (st : CCState) (o : OutputFile)
    (q : String) :
    keyIn (process_output u st o) q ↔ (q ∈ output_paths o ∨ keyIn st q) := by
  unfold process_output output_paths
  cases hh : o.hardlink with
  | none =>
    cases hep : o.export_path with
    | none => simp [cc_insert_keys]
    | some ep =>
      simp only [cc_insert_keys]
      simp only [List.mem_append, List.mem_singleton, List.not_mem_nil, or_false]
      tauto
  | some hl =>
    cases hep : o.export_path with
    | none =>
      simp only [cc_insert_keys]
      simp only [List.mem_append, List.mem_singleton, List.not_mem_nil, or_false]
      tauto
    | some ep =>
      simp only [cc_insert_keys]
      simp only [List.mem_append, List.mem_singleton, List.not_mem_nil, or_false]
      tauto

theorem process_output_warnings (u : Cargo.Unit) (st : CCState) (o : OutputFile) :
    ∃ w, (process_output u st o).warnings = st.warnings ++ w := by
  unfold process_output
  cases hh : o.hardlink with
  | none =>
    cases hep : o.export_path with
    | none => exact cc_insert_warnings u o.path st
    | some ep =>
      obtain ⟨w1, h1⟩ := cc_insert_warnings u o.path st
      obtain ⟨w2, h2⟩ := cc_insert_warnings u ep (cc_insert u o.path st)
      exact ⟨w1 ++ w2, by rw [h2, h1, List.append_assoc]⟩
  | some hl =>
    cases hep : o.export_path with
    | none =>
      obtain ⟨w1, h1⟩ := cc_insert_warnings u o.path st
      obtain ⟨w2, h2⟩ := cc_insert_warnings u hl (cc_insert u o.path st)
      exact ⟨w1 ++ w2, by rw [h2, h1, List.append_assoc]⟩
    | some ep =>
      obtain ⟨w1, h1⟩ := cc_insert_warnings u o.path st
      obtain ⟨w2, h2⟩ := cc_insert_warnings u hl (cc_insert u o.path st)
      obtain ⟨w3, h3⟩ := cc_insert_warnings u ep
        (cc_insert u hl (cc_insert u o.path st))
      exact ⟨w1 ++ w2 ++ w3, by
        rw [h3, h2, h1, List.append_assoc, List.append_assoc, List.append_assoc]⟩

theorem process_output_warn_on_hit (u : Cargo.Unit) (st : CCState)
    (o : OutputFile) (p : String) (hk : keyIn st p) (hp : p ∈ output_paths o) :
    ¬((process_output u st o).warnings = []) := by
  have hne : ∀ (st2 : CCState) (q : String), ¬(st2.warnings = []) →
      ¬((cc_insert u q st2).warnings = []) := by
    intro st2 q h
    obtain ⟨w, hw⟩ := cc_insert_warnings u q st2
    rw [hw]
    exact nonempty_append _ _ h
  unfold output_paths at hp
  unfold process_output
  rcases List.mem_append.1 hp with hp1 | hpe
  · rcases List.mem_append.1 hp1 with hpp | hph
    · -- p is the compiler path
      have hp2 : p = o.path := List.mem_singleton.1 hpp
      subst hp2
      have h1 : ¬((cc_insert u o.path st).warnings = []) :=
        cc_insert_warn_on_hit u o.path st hk
      cases hh : o.hardlink with
      | none =>
        cases hep : o.export_path with
        | none => exact h1
        | some ep => exact hne _ ep h1
      | some hl =>
        cases hep : o.export_path with
        | none => exact hne _ hl h1
        | some ep => exact hne _ ep (hne _ hl h1)
    · -- p is the hardlink
      cases hh : o.hardlink with
      | none => rw [hh] at hph; simp at hph
      | some hl =>
        rw [hh] at hph
        have hp2 : p = hl := List.mem_singleton.1 hph
        subst hp2
        have hk1 : keyIn (cc_insert u o.path st) p :=
          (cc_insert_keys u o.path st p).2 (Or.inr hk)
        have h1 : ¬((cc_insert u p (cc_insert u o.path st)).warnings = []) :=
          cc_insert_warn_on_hit u p _ hk1
        cases hep : o.export_path with
        | none => exact h1
        | some ep => exact hne _ ep h1
  · -- p is the export path
    cases hep : o.export_path with
    | none => rw [hep] at hpe; simp at hpe
    | some ep =>
      rw [hep] at hpe
      have hp2 : p = ep := List.mem_singleton.1 hpe
      subst hp2
      cases hh : o.hardlink with
      | none =>
        have hk1 : keyIn (cc_insert u o.path st) p :=
          (cc_insert_keys u o.path st p).2 (Or.inr hk)
        exact cc_insert_warn_on_hit u p _ hk1
      | some hl =>
        have hk1 : keyIn (cc_insert u o.path st) p :=
          (cc_insert_keys u o.path st p).2 (Or.inr hk)
        have hk2 : keyIn (cc_insert u hl (cc_insert u o.path st)) p :=
          (cc_insert_keys u hl _ p).2 (Or.inr hk1)
        exact cc_insert_warn_on_hit u p _ hk2

theorem process_output_docs (u : Cargo.Unit) (st : CCState) (o : OutputFile) :
    (process_output u st o).doc_libs = st.doc_libs ∧
    (process_output u st o).doc_bins = st.doc_bins := by
  unfold process_output
  cases hh : o.hardlink with
  | none =>
    cases hep : o.export_path with
    | none => exact cc_insert_docs u o.path st
    | some ep =>
      obtain ⟨h1, h2⟩ := cc_insert_docs u o.path st
      obtain ⟨h3, h4⟩ := cc_insert_docs u ep (cc_insert u o.path st)
      exact ⟨h3.trans h1, h4.trans h2⟩
  | some hl =>
    cases hep : o.export_path with
    | none =>
      obtain ⟨h1, h2⟩ := cc_insert_docs u o.path st
      obtain ⟨h3, h4⟩ := cc_insert_docs u hl (cc_insert u o.path st)
      exact ⟨h3.trans h1, h4.trans h2⟩
    | some ep =>
      obtain ⟨h1, h2⟩ := cc_insert_docs u o.path st
      obtain ⟨h3, h4⟩ := cc_insert_docs u hl (cc_insert u o.path st)
      obtain ⟨h5, h6⟩ := cc_insert_docs u ep (cc_insert u hl (cc_insert u o.path st))
      exact ⟨(h5.trans h3).trans h1, (h6.trans h4).trans h2⟩

theorem outputs_check_keys_mono (u : Cargo.Unit) (os : List OutputFile)
    (st : CCState) (q : String) (h : keyIn st q) :
    keyIn (outputs_check u os st) q := by
  unfold outputs_check
  refine foldl_preserve (process_output u) (fun s : CCState => keyIn s q)
    os st h ?_
  intro b o _ hb
  exact (process_output_keys u b o q).2 (Or.inr hb)

theorem outputs_check_warnings_mono (u : Cargo.Unit) (os : List OutputFile)
    (st : CCState) (h : ¬(st.warnings = [])) :
    ¬((outputs_check u os st).warnings = []) := by
  unfold outputs_check
  refine foldl_preserve (process_output u)
    (fun s : CCState => ¬(s.warnings = [])) os st h ?_
  intro b o _ hb
  obtain ⟨w, hw⟩ := process_output_warnings u b o
  rw [hw]
  exact nonempty_append _ _ hb

theorem outputs_check_docs (u : Cargo.Unit) (os : List OutputFile) (st : CCState) :
    (outputs_check u os st).doc_libs = st.doc_libs ∧
    (outputs_check u os st).doc_bins = st.doc_bins := by
  unfold outputs_check
  refine foldl_preserve (process_output u)
    (fun s : CCState => s.doc_libs = st.doc_libs ∧ s.doc_bins = st.doc_bins)
    os st ⟨rfl, rfl⟩ ?_
  intro b o _ hb
  obtain ⟨h1, h2⟩ := process_output_docs u b o
  exact ⟨h1.trans hb.1, h2.trans hb.2⟩

theorem outputs_check_adds_keys (u : Cargo.Unit) :
    ∀ (os : List OutputFile) (st : CCState) (p : String),
      p ∈ os.flatMap output_paths → keyIn (outputs_check u os st) p := by
  intro os
  induction os with
  | nil => intro st p hp; simp at hp
  | cons o os ih =>
    intro st p hp
    have hp3 : p ∈ output_paths o ∨ ∃ a ∈ os, p ∈ output_paths a := by
      simpa using hp
    rcases hp3 with hp1 | ⟨a, ha, hpa⟩
    · show keyIn (os.foldl (process_output u) (process_output u st o)) p
      exact outputs_check_keys_mono u os _ p
        ((process_output_keys u st o p).2 (Or.inl hp1))
    · exact ih (process_output u st o) p (List.mem_flatMap.2 ⟨a, ha, hpa⟩)

theorem outputs_check_warn_on_hit (u : Cargo.Unit) :
    ∀ (os : List OutputFile) (st : CCState) (p : String),
      keyIn st p → p ∈ os.flatMap output_paths →
      ¬((outputs_check u os st).warnings = []) := by
  intro os
  induction os with
  | nil => intro st p _ hp; simp at hp
  | cons o os ih =>
    intro st p hk hp
    have hp3 : p ∈ output_paths o ∨ ∃ a ∈ os, p ∈ output_paths a := by
      simpa using hp
    rcases hp3 with hp1 | ⟨a, ha, hpa⟩
    · show ¬((os.foldl (process_output u) (process_output u st o)).warnings = [])
      exact outputs_check_warnings_mono u os _
        (process_output_warn_on_hit u st o p hk hp1)
    · exact ih (process_output u st o) p
        ((process_output_keys u st o p).2 (Or.inr hk))
        (List.mem_flatMap.2 ⟨a, ha, hpa⟩)

theorem doc_check_ok_out (primaries : List String) (u : Cargo.Unit)
    (st st2 : CCState) (h : doc_check primaries u st = .ok st2) :
    st2.output_collisions = st.output_collisions ∧ st2.warnings = st.warnings := by
  unfold doc_check at h
  by_cases h1 : (u.mode.is_doc && is_primary_package primaries u) = true
  · rw [if_pos h1] at h
    by_cases h2 : u.target.is_lib = true
    · rw [if_pos h2] at h
      cases hins : assocInsert (u.target.crate_name, u.kind) u st.doc_libs with
      | mk o m =>
        rw [hins] at h
        cases o with
        | some prev => exact Except.noConfusion h
        | none =>
          have h3 := Except.ok.inj h
          rw [← h3]
          exact ⟨rfl, rfl⟩
    · rw [if_neg h2] at h
      cases hins : assocInsert (u.target.crate_name, u.kind) u st.doc_bins with
      | mk o m =>
        rw [hins] at h
        cases o with
        | some prev => exact Except.noConfusion h
        | none =>
          have h3 := Except.ok.inj h
          rw [← h3]
          exact ⟨rfl, rfl⟩
  · rw [if_neg h1] at h
    have h3 := Except.ok.inj h
    rw [← h3]
    exact ⟨rfl, rfl⟩

theorem assocInsert_some_mem {κ ν : Type} [DecidableEq κ] (k : κ) (v : ν) :
    ∀ (m : List (κ × ν)) (w : ν), (assocInsert k v m).1 = some w → (k, w) ∈ m := by
  intro m
  induction m with
  | nil => intro w h; exact Option.noConfusion h
  | cons e rest ih =>
    intro w h
    by_cases he : e.1 = k
    · rw [show (assocInsert k v (e :: rest)).1 = some e.2 by
        simp only [assocInsert, if_pos he]] at h
      have hw := Option.some.inj h
      obtain ⟨a, b⟩ := e
      have ha : a = k := he
      subst ha
      rw [← hw]
      exact List.mem_cons_self _ _
    · rw [show (assocInsert k v (e :: rest)).1 = (assocInsert k v rest).1 by
        simp only [assocInsert, if_neg he]] at h
      exact List.mem_cons_of_mem e (ih w h)

theorem assocInsert_fst_none {κ ν : Type} [DecidableEq κ] (k : κ) (v : ν) :
    ∀ (m : List (κ × ν)), (assocInsert k v m).1 = none →
      ∀ e ∈ m, ¬(e.1 = k) := by
  intro m
  induction m with
  | nil => intro _ e he; simp at he
  | cons e rest ih =>
    intro h e2 he2
    by_cases he : e.1 = k
    · rw [show (assocInsert k v (e :: rest)).1 = some e.2 by
        simp only [assocInsert, if_pos he]] at h
      exact Option.noConfusion h
    · rw [show (assocInsert k v (e :: rest)).1 = (assocInsert k v rest).1 by
        simp only [assocInsert, if_neg he]] at h
      rcases List.mem_cons.1 he2 with rfl | hmem
      · exact he
      · exact ih h e2 hmem

theorem is_primary_iff (primaries : List String) (u : Cargo.Unit) :
    is_primary_package primaries u = true ↔ u.pkg ∈ primaries := by
  simp [is_primary_package]

theorem fatal_pair_symm (primaries : List String) (u1 u2 : Cargo.Unit)
    (h : fatal_pair primaries u1 u2) : fatal_pair primaries u2 u1 := by
  obtain ⟨hne, hd1, hd2, hp1, hp2, hl, hc, hk⟩ := h
  exact ⟨fun e => hne e.symm, hd2, hd1, hp2, hp1, hl.symm, hc.symm, hk.symm⟩

theorem ccStep_error (primaries : List String)
    (outputs : Cargo.Unit → List OutputFile) (st : CCState) (u : Cargo.Unit)
    (e : String) (h : doc_check primaries u st = .error e) :
    ccStep primaries outputs st u = .error e := by
  unfold ccStep
  rw [h]
  rfl

theorem ccStep_ok (primaries : List String)
    (outputs : Cargo.Unit → List OutputFile) (st st2 : CCState) (u : Cargo.Unit)
    (h : doc_check primaries u st = .ok st2) :
    ccStep primaries outputs st u = .ok (outputs_check u (outputs u) st2) := by
  unfold ccStep
  rw [h]
  rfl

theorem foldlM_cc_cons_error (primaries : List String)
    (outputs : Cargo.Unit → List OutputFile) (st : CCState) (u : Cargo.Unit)
    (L : List Cargo.Unit) (e : String)
    (h : ccStep primaries outputs st u = .error e) :
    List.foldlM (ccStep primaries outputs) st (u :: L) = .error e := by
  rw [List.foldlM_cons, h]
  rfl

theorem foldlM_cc_cons_ok (primaries : List String)
    (outputs : Cargo.Unit → List OutputFile) (st st2 : CCState) (u : Cargo.Unit)
    (L : List Cargo.Unit)
    (h : ccStep primaries outputs st u = .ok st2) :
    List.foldlM (ccStep primaries outputs) st (u :: L) =
      List.foldlM (ccStep primaries outputs) st2 L := by
  rw [List.foldlM_cons, h]
  rfl

theorem mem_shift {α : Type} (pre L2 : List α) (u x : α)
    (h : x ∈ pre ++ [u] ∨ x ∈ L2) : x ∈ pre ∨ x ∈ u :: L2 := by
  rcases h with h | h
  · rcases List.mem_append.1 h with h | h
    · exact Or.inl h
    · exact Or.inr (List.mem_cons.2 (Or.inl (List.mem_singleton.1 h)))
  · exact Or.inr (List.mem_cons_of_mem u h)

theorem mem_unshift {α : Type} (pre L2 : List α) (u x : α)
    (h : x ∈ pre ∨ x ∈ u :: L2) : x ∈ pre ++ [u] ∨ x ∈ L2 := by
  rcases h with h | h
  · exact Or.inl (List.mem_append.2 (Or.inl h))
  · rcases List.mem_cons.1 h with rfl | h
    · exact Or.inl (List.mem_append.2 (Or.inr (List.mem_singleton.2 rfl)))
    · exact Or.inr h

theorem cc_fold (primaries : List String) (outputs : Cargo.Unit → List OutputFile) :
    ∀ (L : List Cargo.Unit), ∀ (pre : List Cargo.Unit) (st : CCState),
      docEntryInv primaries pre true st.doc_libs →
      docEntryInv primaries pre false st.doc_bins →
      (∀ u1 u2, u1 ∈ pre → u2 ∈ pre → ¬ fatal_pair primaries u1 u2) →
      (∀ u, u ∈ L → u ∉ pre) →
      L.Nodup →
      (∀ msg, List.foldlM (ccStep primaries outputs) st L = .error msg →
        ∃ u1 u2, (u1 ∈ pre ∨ u1 ∈ L) ∧ (u2 ∈ pre ∨ u2 ∈ L) ∧
          fatal_pair primaries u1 u2 ∧ msg = doc_collision_error_msg u1 u2) ∧
      (∀ st2, List.foldlM (ccStep primaries outputs) st L = .ok st2 →
        ∀ u1 u2, (u1 ∈ pre ∨ u1 ∈ L) → (u2 ∈ pre ∨ u2 ∈ L) →
          ¬ fatal_pair primaries u1 u2) := by
  intro L
  induction L with
  | nil =>
    intro pre st _ _ hpf _ _
    constructor
    · intro msg h
      rw [List.foldlM_nil] at h
      exact Except.noConfusion h
    · intro st2 h u1 u2 h1 h2
      have h1x : u1 ∈ pre := by rcases h1 with h1 | h1; exact h1; simp at h1
      have h2x : u2 ∈ pre := by rcases h2 with h2 | h2; exact h2; simp at h2
      exact hpf u1 u2 h1x h2x
  | cons u L2 ih =>
    intro pre st hlib hbin hpf hdisj hnd
    have hndL2 : L2.Nodup := (List.nodup_cons.1 hnd).2
    have huL2 : u ∉ L2 := (List.nodup_cons.1 hnd).1
    have hupre : u ∉ pre := hdisj u (List.mem_cons_self u L2)
    have hdisj2 : ∀ v, v ∈ L2 → v ∉ pre ++ [u] := by
      intro v hv hvp
      rcases List.mem_append.1 hvp with h | h
      · exact hdisj v (List.mem_cons_of_mem u hv) h
      · have hvu : v = u := List.mem_singleton.1 h
        subst hvu
        exact huL2 hv
    by_cases hdoc : (u.mode.is_doc && is_primary_package primaries u) = true
    · -- the unit is a primary Doc unit
      have hdocP : u.mode = CompileMode.Doc ∧ u.pkg ∈ primaries := by
        rw [Bool.and_eq_true] at hdoc
        exact ⟨(is_doc_iff u.mode).1 hdoc.1, (is_primary_iff primaries u).1 hdoc.2⟩
      by_cases hlib2 : u.target.is_lib = true
      · -- library target: insert into doc_libs
        have hdc0 : doc_check primaries u st =
            (match assocInsert (u.target.crate_name, u.kind) u st.doc_libs with
             | (some prev, _) => .error (doc_collision_error_msg u prev)
             | (none, m) => .ok { st with doc_libs := m }) := by
          unfold doc_check
          rw [if_pos hdoc, if_pos hlib2]
        cases hins : assocInsert (u.target.crate_name, u.kind) u st.doc_libs with
        | mk o m =>
          rw [hins] at hdc0
          cases o with
          | some prev =>
            have hdc : doc_check primaries u st =
                .error (doc_collision_error_msg u prev) := hdc0
            have hfold := foldlM_cc_cons_error primaries outputs st u L2 _
              (ccStep_error primaries outputs st u _ hdc)
            have hprevmem : ((u.target.crate_name, u.kind), prev) ∈ st.doc_libs := by
              apply assocInsert_some_mem (u.target.crate_name, u.kind) u st.doc_libs prev
              rw [hins]
            obtain ⟨hwpre, hwd, hwp, hwl, hwk⟩ :=
              (hlib (u.target.crate_name, u.kind) prev).1 hprevmem
            have hfp : fatal_pair primaries u prev := by
              refine ⟨?_, hdocP.1, hwd, hdocP.2, hwp, ?_, ?_, ?_⟩
              · intro e; exact hupre (e ▸ hwpre)
              · rw [hlib2, hwl]
              · exact congrArg Prod.fst hwk
              · exact congrArg Prod.snd hwk
            constructor
            · intro msg h
              rw [hfold] at h
              exact ⟨u, prev, Or.inr (List.mem_cons_self u L2), Or.inl hwpre, hfp,
                (Except.error.inj h).symm⟩
            · intro st2 h
              rw [hfold] at h
              exact Except.noConfusion h
          | none =>
            have hdc : doc_check primaries u st = .ok { st with doc_libs := m } := hdc0
            have hnone : (assocInsert (u.target.crate_name, u.kind) u
                st.doc_libs).1 = none := by rw [hins]
            have hnokey := assocInsert_fst_none (u.target.crate_name, u.kind) u
              st.doc_libs hnone
            have hm : m = st.doc_libs ++ [((u.target.crate_name, u.kind), u)] := by
              have h2 := assocInsert_none (u.target.crate_name, u.kind) u
                st.doc_libs hnokey
              rw [hins, Prod.mk.injEq] at h2
              exact h2.2
            subst hm
            have hfold := foldlM_cc_cons_ok primaries outputs st
              (outputs_check u (outputs u)
                { st with doc_libs :=
                    st.doc_libs ++ [((u.target.crate_name, u.kind), u)] })
              u L2 (ccStep_ok primaries outputs st _ u hdc)
            have hdocs := outputs_check_docs u (outputs u)
              { st with doc_libs :=
                  st.doc_libs ++ [((u.target.crate_name, u.kind), u)] }
            have hnopair : ∀ w, w ∈ pre → ¬ fatal_pair primaries u w := by
              intro w hw hf
              obtain ⟨hne, hd1, hd2, hp1, hp2, hl, hc, hk⟩ := hf
              have hwl : w.target.is_lib = true := by rw [← hl]; exact hlib2
              have hmem : (dockey w, w) ∈ st.doc_libs :=
                (hlib (dockey w) w).2 ⟨hw, hd2, hp2, hwl, rfl⟩
              apply hnokey (dockey w, w) hmem
              show dockey w = (u.target.crate_name, u.kind)
              unfold dockey
              rw [← hc, ← hk]
            have hlib' : docEntryInv primaries (pre ++ [u]) true
                (outputs_check u (outputs u)
                  { st with doc_libs :=
                      st.doc_libs ++ [((u.target.crate_name, u.kind), u)] }).doc_libs := by
              rw [hdocs.1]
              show docEntryInv primaries (pre ++ [u]) true
                (st.doc_libs ++ [((u.target.crate_name, u.kind), u)])
              intro k w
              constructor
              · intro hmem
                rcases List.mem_append.1 hmem with hm1 | hm2
                · obtain ⟨hw, hd, hp, hl, hk⟩ := (hlib k w).1 hm1
                  exact ⟨List.mem_append.2 (Or.inl hw), hd, hp, hl, hk⟩
                · have h2 := List.mem_singleton.1 hm2
                  rw [Prod.mk.injEq] at h2
                  obtain ⟨hk1, hw1⟩ := h2
                  subst hw1
                  refine ⟨List.mem_append.2 (Or.inr (List.mem_singleton.2 rfl)),
                    hdocP.1, hdocP.2, hlib2, ?_⟩
                  rw [hk1]; rfl
              · rintro ⟨hw, hd, hp, hl, hk⟩
                rcases List.mem_append.1 hw with hw1 | hw2
                · exact List.mem_append.2 (Or.inl ((hlib k w).2 ⟨hw1, hd, hp, hl, hk⟩))
                · have hwu : w = u := List.mem_singleton.1 hw2
                  subst hwu
                  refine List.mem_append.2 (Or.inr (List.mem_singleton.2 ?_))
                  rw [hk]; rfl
            have hbin' : docEntryInv primaries (pre ++ [u]) false
                (outputs_check u (outputs u)
                  { st with doc_libs :=
                      st.doc_libs ++ [((u.target.crate_name, u.kind), u)] }).doc_bins := by
              rw [hdocs.2]
              show docEntryInv primaries (pre ++ [u]) false st.doc_bins
              intro k w
              rw [hbin k w]
              constructor
              · rintro ⟨hw, hd, hp, hl, hk⟩
                exact ⟨List.mem_append.2 (Or.inl hw), hd, hp, hl, hk⟩
              · rintro ⟨hw, hd, hp, hl, hk⟩
                rcases List.mem_append.1 hw with hw1 | hw2
                · exact ⟨hw1, hd, hp, hl, hk⟩
                · have hwu : w = u := List.mem_singleton.1 hw2
                  subst hwu
                  rw [hlib2] at hl
                  exact Bool.noConfusion hl
            have hpf' : ∀ u1 u2, u1 ∈ pre ++ [u] → u2 ∈ pre ++ [u] →
                ¬ fatal_pair primaries u1 u2 := by
              intro u1 u2 h1 h2 hf
              rcases List.mem_append.1 h1 with h1 | h1
              · rcases List.mem_append.1 h2 with h2 | h2
                · exact hpf u1 u2 h1 h2 hf
                · have he : u2 = u := List.mem_singleton.1 h2
                  rw [he] at hf
                  exact hnopair u1 h1 (fatal_pair_symm _ _ _ hf)
              · have he : u1 = u := List.mem_singleton.1 h1
                rw [he] at hf
                rcases List.mem_append.1 h2 with h2 | h2
                · exact hnopair u2 h2 hf
                · have he2 : u2 = u := List.mem_singleton.1 h2
                  rw [he2] at hf
                  exact hf.1 rfl
            obtain ⟨ihe, iho⟩ := ih (pre ++ [u]) _ hlib' hbin' hpf' hdisj2 hndL2
            constructor
            · intro msg h
              rw [hfold] at h
              obtain ⟨u1, u2, h1, h2, hf, hmsg⟩ := ihe msg h
              exact ⟨u1, u2, mem_shift _ _ _ _ h1, mem_shift _ _ _ _ h2, hf, hmsg⟩
            · intro st2 h u1 u2 h1 h2
              rw [hfold] at h
              exact iho st2 h u1 u2 (mem_unshift _ _ _ _ h1) (mem_unshift _ _ _ _ h2)
      · -- non-library target: insert into doc_bins
        have hlib3 : u.target.is_lib = false := by
          cases hb : u.target.is_lib
          · rfl
          · exact absurd hb hlib2
        have hdc0 : doc_check primaries u st =
            (match assocInsert (u.target.crate_name, u.kind) u st.doc_bins with
             | (some prev, _) => .error (doc_collision_error_msg u prev)
             | (none, m) => .ok { st with doc_bins := m }) := by
          unfold doc_check
          rw [if_pos hdoc, if_neg hlib2]
        cases hins : assocInsert (u.target.crate_name, u.kind) u st.doc_bins with
        | mk o m =>
          rw [hins] at hdc0
          cases o with
          | some prev =>
            have hdc : doc_check primaries u st =
                .error (doc_collision_error_msg u prev) := hdc0
            have hfold := foldlM_cc_cons_error primaries outputs st u L2 _
              (ccStep_error primaries outputs st u _ hdc)
            have hprevmem : ((u.target.crate_name, u.kind), prev) ∈ st.doc_bins := by
              apply assocInsert_some_mem (u.target.crate_name, u.kind) u st.doc_bins prev
              rw [hins]
            obtain ⟨hwpre, hwd, hwp, hwl, hwk⟩ :=
              (hbin (u.target.crate_name, u.kind) prev).1 hprevmem
            have hfp : fatal_pair primaries u prev := by
              refine ⟨?_, hdocP.1, hwd, hdocP.2, hwp, ?_, ?_, ?_⟩
              · intro e; exact hupre (e ▸ hwpre)
              · rw [hlib3, hwl]
              · exact congrArg Prod.fst hwk
              · exact congrArg Prod.snd hwk
            constructor
            · intro msg h
              rw [hfold] at h
              exact ⟨u, prev, Or.inr (List.mem_cons_self u L2), Or.inl hwpre, hfp,
                (Except.error.inj h).symm⟩
            · intro st2 h
              rw [hfold] at h
              exact Except.noConfusion h
          | none =>
            have hdc : doc_check primaries u st = .ok { st with doc_bins := m } := hdc0
            have hnone : (assocInsert (u.target.crate_name, u.kind) u
                st.doc_bins).1 = none := by rw [hins]
            have hnokey := assocInsert_fst_none (u.target.crate_name, u.kind) u
              st.doc_bins hnone
            have hm : m = st.doc_bins ++ [((u.target.crate_name, u.kind), u)] := by
              have h2 := assocInsert_none (u.target.crate_name, u.kind) u
                st.doc_bins hnokey
              rw [hins, Prod.mk.injEq] at h2
              exact h2.2
            subst hm
            have hfold := foldlM_cc_cons_ok primaries outputs st
              (outputs_check u (outputs u)
                { st with doc_bins :=
                    st.doc_bins ++ [((u.target.crate_name, u.kind), u)] })
              u L2 (ccStep_ok primaries outputs st _ u hdc)
            have hdocs := outputs_check_docs u (outputs u)
              { st with doc_bins :=
                  st.doc_bins ++ [((u.target.crate_name, u.kind), u)] }
            have hnopair : ∀ w, w ∈ pre → ¬ fatal_pair primaries u w := by
              intro w hw hf
              obtain ⟨hne, hd1, hd2, hp1, hp2, hl, hc, hk⟩ := hf
              have hwl : w.target.is_lib = false := by rw [← hl]; exact hlib3
              have hmem : (dockey w, w) ∈ st.doc_bins :=
                (hbin (dockey w) w).2 ⟨hw, hd2, hp2, hwl, rfl⟩
              apply hnokey (dockey w, w) hmem
              show dockey w = (u.target.crate_name, u.kind)
              unfold dockey
              rw [← hc, ← hk]
            have hlib' : docEntryInv primaries (pre ++ [u]) true
                (outputs_check u (outputs u)
                  { st with doc_bins :=
                      st.doc_bins ++ [((u.target.crate_name, u.kind), u)] }).doc_libs := by
              rw [hdocs.1]
              show docEntryInv primaries (pre ++ [u]) true st.doc_libs
              intro k w
              rw [hlib k w]
              constructor
              · rintro ⟨hw, hd, hp, hl, hk⟩
                exact ⟨List.mem_append.2 (Or.inl hw), hd, hp, hl, hk⟩
              · rintro ⟨hw, hd, hp, hl, hk⟩
                rcases List.mem_append.1 hw with hw1 | hw2
                · exact ⟨hw1, hd, hp, hl, hk⟩
                · have hwu : w = u := List.mem_singleton.1 hw2
                  subst hwu
                  rw [hlib3] at hl
                  exact Bool.noConfusion hl
            have hbin' : docEntryInv primaries (pre ++ [u]) false
                (outputs_check u (outputs u)
                  { st with doc_bins :=
                      st.doc_bins ++ [((u.target.crate_name, u.kind), u)] }).doc_bins := by
              rw [hdocs.2]
              show docEntryInv primaries (pre ++ [u]) false
                (st.doc_bins ++ [((u.target.crate_name, u.kind), u)])
              intro k w
              constructor
              · intro hmem
                rcases List.mem_append.1 hmem with hm1 | hm2
                · obtain ⟨hw, hd, hp, hl, hk⟩ := (hbin k w).1 hm1
                  exact ⟨List.mem_append.2 (Or.inl hw), hd, hp, hl, hk⟩
                · have h2 := List.mem_singleton.1 hm2
                  rw [Prod.mk.injEq] at h2
                  obtain ⟨hk1, hw1⟩ := h2
                  subst hw1
                  refine ⟨List.mem_append.2 (Or.inr (List.mem_singleton.2 rfl)),
                    hdocP.1, hdocP.2, hlib3, ?_⟩
                  rw [hk1]; rfl
              · rintro ⟨hw, hd, hp, hl, hk⟩
                rcases List.mem_append.1 hw with hw1 | hw2
                · exact List.mem_append.2 (Or.inl ((hbin k w).2 ⟨hw1, hd, hp, hl, hk⟩))
                · have hwu : w = u := List.mem_singleton.1 hw2
                  subst hwu
                  refine List.mem_append.2 (Or.inr (List.mem_singleton.2 ?_))
                  rw [hk]; rfl
            have hpf' : ∀ u1 u2, u1 ∈ pre ++ [u] → u2 ∈ pre ++ [u] →
                ¬ fatal_pair primaries u1 u2 := by
              intro u1 u2 h1 h2 hf
              rcases List.mem_append.1 h1 with h1 | h1
              · rcases List.mem_append.1 h2 with h2 | h2
                · exact hpf u1 u2 h1 h2 hf
                · have he : u2 = u := List.mem_singleton.1 h2
                  rw [he] at hf
                  exact hnopair u1 h1 (fatal_pair_symm _ _ _ hf)
              · have he : u1 = u := List.mem_singleton.1 h1
                rw [he] at hf
                rcases List.mem_append.1 h2 with h2 | h2
                · exact hnopair u2 h2 hf
                · have he2 : u2 = u := List.mem_singleton.1 h2
                  rw [he2] at hf
                  exact hf.1 rfl
            obtain ⟨ihe, iho⟩ := ih (pre ++ [u]) _ hlib' hbin' hpf' hdisj2 hndL2
            constructor
            · intro msg h
              rw [hfold] at h
              obtain ⟨u1, u2, h1, h2, hf, hmsg⟩ := ihe msg h
              exact ⟨u1, u2, mem_shift _ _ _ _ h1, mem_shift _ _ _ _ h2, hf, hmsg⟩
            · intro st2 h u1 u2 h1 h2
              rw [hfold] at h
              exact iho st2 h u1 u2 (mem_unshift _ _ _ _ h1) (mem_unshift _ _ _ _ h2)
    · -- not a primary Doc unit: the doc maps are untouched
      have hdc : doc_check primaries u st = .ok st := by
        unfold doc_check
        rw [if_neg hdoc]
      have hfold := foldlM_cc_cons_ok primaries outputs st
        (outputs_check u (outputs u) st) u L2 (ccStep_ok primaries outputs st st u hdc)
      have hdocs := outputs_check_docs u (outputs u) st
      have hcond : ¬(u.mode = CompileMode.Doc ∧ u.pkg ∈ primaries) := by
        intro hcp
        apply hdoc
        rw [Bool.and_eq_true]
        exact ⟨(is_doc_iff u.mode).2 hcp.1, (is_primary_iff primaries u).2 hcp.2⟩
      have hlib' : docEntryInv primaries (pre ++ [u]) true
          (outputs_check u (outputs u) st).doc_libs := by
        rw [hdocs.1]
        intro k w
        rw [hlib k w]
        constructor
        · rintro ⟨hw, hd, hp, hl, hk⟩
          exact ⟨List.mem_append.2 (Or.inl hw), hd, hp, hl, hk⟩
        · rintro ⟨hw, hd, hp, hl, hk⟩
          rcases List.mem_append.1 hw with hw1 | hw2
          · exact ⟨hw1, hd, hp, hl, hk⟩
          · have hwu : w = u := List.mem_singleton.1 hw2
            subst hwu
            exact absurd ⟨hd, hp⟩ hcond
      have hbin' : docEntryInv primaries (pre ++ [u]) false
          (outputs_check u (outputs u) st).doc_bins := by
        rw [hdocs.2]
        intro k w
        rw [hbin k w]
        constructor
        · rintro ⟨hw, hd, hp, hl, hk⟩
          exact ⟨List.mem_append.2 (Or.inl hw), hd, hp, hl, hk⟩
        · rintro ⟨hw, hd, hp, hl, hk⟩
          rcases List.mem_append.1 hw with hw1 | hw2
          · exact ⟨hw1, hd, hp, hl, hk⟩
          · have hwu : w = u := List.mem_singleton.1 hw2
            subst hwu
            exact absurd ⟨hd, hp⟩ hcond
      have hpf' : ∀ u1 u2, u1 ∈ pre ++ [u] → u2 ∈ pre ++ [u] →
          ¬ fatal_pair primaries u1 u2 := by
        have hnopair : ∀ w, ¬ fatal_pair primaries u w := by
          intro w hf
          exact hcond ⟨hf.2.1, hf.2.2.2.1⟩
        intro u1 u2 h1 h2 hf
        rcases List.mem_append.1 h1 with h1 | h1
        · rcases List.mem_append.1 h2 with h2 | h2
          · exact hpf u1 u2 h1 h2 hf
          · have he : u2 = u := List.mem_singleton.1 h2
            rw [he] at hf
            exact hnopair u1 (fatal_pair_symm _ _ _ hf)
        · have he : u1 = u := List.mem_singleton.1 h1
          rw [he] at hf
          exact hnopair u2 hf
      obtain ⟨ihe, iho⟩ := ih (pre ++ [u]) _ hlib' hbin' hpf' hdisj2 hndL2
      constructor
      · intro msg h
        rw [hfold] at h
        obtain ⟨u1, u2, h1, h2, hf, hmsg⟩ := ihe msg h
        exact ⟨u1, u2, mem_shift _ _ _ _ h1, mem_shift _ _ _ _ h2, hf, hmsg⟩
      · intro st2 h u1 u2 h1 h2
        rw [hfold] at h
        exact iho st2 h u1 u2 (mem_unshift _ _ _ _ h1) (mem_unshift _ _ _ _ h2)

theorem cc_warnings (primaries : List String)
    (outputs : Cargo.Unit → List OutputFile) :
    ∀ (L : List Cargo.Unit) (st stF : CCState),
      List.foldlM (ccStep primaries outputs) st L = .ok stF →
      (¬(st.warnings = []) → ¬(stF.warnings = [])) ∧
      (∀ p, keyIn st p → keyIn stF p) := by
  intro L
  induction L with
  | nil =>
    intro st stF h
    rw [List.foldlM_nil] at h
    have he : st = stF := Except.ok.inj h
    subst he
    exact ⟨id, fun p hp => hp⟩
  | cons u L2 ih =>
    intro st stF h
    rw [List.foldlM_cons] at h
    obtain ⟨st1, hs1, hrest⟩ := except_bind_ok _ _ _ h
    obtain ⟨stD, hD, hPure⟩ := except_bind_ok _ _ _
      (show (doc_check primaries u st >>= fun s =>
        pure (outputs_check u (outputs u) s)) = .ok st1 from hs1)
    have hst1 : st1 = outputs_check u (outputs u) stD := (Except.ok.inj hPure).symm
    subst hst1
    obtain ⟨hDout, hDwarn⟩ := doc_check_ok_out primaries u st stD hD
    obtain ⟨ihw, ihk⟩ := ih _ stF hrest
    constructor
    · intro hw
      apply ihw
      apply outputs_check_warnings_mono
      rw [hDwarn]
      exact hw
    · intro p hp
      apply ihk
      apply outputs_check_keys_mono
      unfold keyIn
      rw [hDout]
      exact hp

theorem cc_warn_split (primaries : List String)
    (outputs : Cargo.Unit → List OutputFile) (l1 l2a l2b : List Cargo.Unit)
    (ua ub : Cargo.Unit) (st0 stF : CCState) (p : String)
    (hpa : p ∈ unit_paths outputs ua) (hpb : p ∈ unit_paths outputs ub)
    (h : List.foldlM (ccStep primaries outputs) st0
        (l1 ++ ua :: (l2a ++ ub :: l2b)) = .ok stF) :
    ¬(stF.warnings = []) := by
  rw [List.foldlM_append] at h
  obtain ⟨st1, h1, h⟩ := except_bind_ok _ _ _ h
  rw [List.foldlM_cons] at h
  obtain ⟨st2, h2, h⟩ := except_bind_ok _ _ _ h
  obtain ⟨stD, hD, hPure⟩ := except_bind_ok _ _ _
    (show (doc_check primaries ua st1 >>= fun s =>
      pure (outputs_check ua (outputs ua) s)) = .ok st2 from h2)
  have hst2 : st2 = outputs_check ua (outputs ua) stD := (Except.ok.inj hPure).symm
  subst hst2
  have hk2 : keyIn (outputs_check ua (outputs ua) stD) p :=
    outputs_check_adds_keys ua (outputs ua) stD p hpa
  rw [List.foldlM_append] at h
  obtain ⟨st3, h3, h⟩ := except_bind_ok _ _ _ h
  have hk3 : keyIn st3 p := (cc_warnings primaries outputs l2a _ st3 h3).2 p hk2
  rw [List.foldlM_cons] at h
  obtain ⟨st4, h4, h⟩ := except_bind_ok _ _ _ h
  obtain ⟨stD2, hD2, hPure2⟩ := except_bind_ok _ _ _
    (show (doc_check primaries ub st3 >>= fun s =>
      pure (outputs_check ub (outputs ub) s)) = .ok st4 from h4)
  have hst4 : st4 = outputs_check ub (outputs ub) stD2 := (Except.ok.inj hPure2).symm
  subst hst4
  obtain ⟨hD2out, _⟩ := doc_check_ok_out primaries ub st3 stD2 hD2
  have hkD2 : keyIn stD2 p := by
    unfold keyIn
    rw [hD2out]
    exact hk3
  have hw4 : ¬((outputs_check ub (outputs ub) stD2).warnings = []) :=
    outputs_check_warn_on_hit ub (outputs ub) stD2 p hkD2 hpb
  exact (cc_warnings primaries outputs l2b _ stF h).1 hw4

theorem two_mem_split {α : Type} (l : List α) (a b : α) (ha : a ∈ l)
    (hb : b ∈ l) (hne : ¬(a = b)) :
    ∃ l1 l2 l3 x y, ((x = a ∧ y = b) ∨ (x = b ∧ y = a)) ∧
      l = l1 ++ x :: (l2 ++ y :: l3) := by
  obtain ⟨s, t, rfl⟩ := List.append_of_mem ha
  rcases List.mem_append.1 hb with hbs | hbt
  · obtain ⟨s1, s2, rfl⟩ := List.append_of_mem hbs
    exact ⟨s1, s2, t, b, a, Or.inr ⟨rfl, rfl⟩, by simp⟩
  · rcases List.mem_cons.1 hbt with he | hbt2
    · exact absurd he.symm hne
    · obtain ⟨t1, t2, rfl⟩ := List.append_of_mem hbt2
      exact ⟨s, t1, t2, a, b, Or.inl ⟨rfl, rfl⟩, by simp⟩

theorem infix_skip {α : Type} (zs ys xs : List α) (h : xs <:+: ys) :
    xs <:+: zs ++ ys :=
  h.trans (List.suffix_append zs ys).isInfix

theorem doc_msg_names (a b : Cargo.Unit) :
    a.target.name.toList <:+: (doc_collision_error_msg a b).toList ∧
    b.target.name.toList <:+: (doc_collision_error_msg a b).toList ∧
    a.pkg.toList <:+: (doc_collision_error_msg a b).toList ∧
    b.pkg.toList <:+: (doc_collision_error_msg a b).toList := by
  simp only [doc_collision_error_msg, stringToList_append, List.append_assoc]
  refine ⟨?_, ?_, ?_, ?_⟩
  · exact infix_skip _ _ _ (infix_skip _ _ _ (infix_skip _ _ _
      (List.prefix_append _ _).isInfix))
  · exact infix_skip _ _ _ (infix_skip _ _ _ (infix_skip _ _ _ (infix_skip _ _ _
      (infix_skip _ _ _ (infix_skip _ _ _ (infix_skip _ _ _ (infix_skip _ _ _
        (infix_skip _ _ _ (List.prefix_append _ _).isInfix))))))))
  · exact infix_skip _ _ _ (infix_skip _ _ _ (infix_skip _ _ _ (infix_skip _ _ _
      (infix_skip _ _ _ (List.prefix_append _ _).isInfix))))
  · exact infix_skip _ _ _ (infix_skip _ _ _ (infix_skip _ _ _ (infix_skip _ _ _
      (infix_skip _ _ _ (infix_skip _ _ _ (infix_skip _ _ _ (infix_skip _ _ _
        (infix_skip _ _ _ (infix_skip _ _ _ (infix_skip _ _ _
          (List.prefix_append _ _).isInfix))))))))))

theorem not_rcb_filter (u : Cargo.Unit) (h : ¬(u.mode = CompileMode.RunCustomBuild)) :
    (!u.mode.is_run_custom_build) = true := by
  simp [CompileMode.is_run_custom_build, h]

/-- C2: `check_collisions` returns a fatal error exactly when two distinct
primary Doc-mode units, both libraries or both non-libraries, share the same
(crate name, compile kind); the fatal message names both targets and both
package ids; and any other collision of an output path, hardlink or export
path between two different units only produces a warning while the function
returns Ok. -/
theorem check_collisions_spec :
    ∀ (units : List Cargo.Unit) (outputs : Cargo.Unit → List OutputFile)
      (primaries : List String), units.Nodup →
      (((∃ msg, check_collisions units outputs primaries = .error msg) ↔
         (∃ u1 u2, u1 ∈ units ∧ u2 ∈ units ∧ fatal_pair primaries u1 u2)) ∧
       (∀ msg, check_collisions units outputs primaries = .error msg →
         ∃ u1 u2, u1 ∈ units ∧ u2 ∈ units ∧ fatal_pair primaries u1 u2 ∧
           msg = doc_collision_error_msg u1 u2) ∧
       (∀ a b : Cargo.Unit,
         a.target.name.toList <:+: (doc_collision_error_msg a b).toList ∧
         b.target.name.toList <:+: (doc_collision_error_msg a b).toList ∧
         a.pkg.toList <:+: (doc_collision_error_msg a b).toList ∧
         b.pkg.toList <:+: (doc_collision_error_msg a b).toList) ∧
       (∀ st, check_collisions units outputs primaries = .ok st →
         ∀ u1 u2 p, u1 ∈ units → u2 ∈ units → ¬(u1 = u2) →
           p ∈ unit_paths outputs u1 → p ∈ unit_paths outputs u2 →
           ¬(u1.mode = CompileMode.RunCustomBuild) →
           ¬(u2.mode = CompileMode.RunCustomBuild) →
           ¬(st.warnings = []))) := by
  intro units outputs primaries hnd
  have hndL : (units.filter (fun u => !u.mode.is_run_custom_build)).Nodup :=
    hnd.filter _
  have hinv1 : docEntryInv primaries [] true
      (⟨[], [], [], []⟩ : CCState).doc_libs := by
    intro k w
    simp
  have hinv2 : docEntryInv primaries [] false
      (⟨[], [], [], []⟩ : CCState).doc_bins := by
    intro k w
    simp
  have hpf0 : ∀ u1 u2, u1 ∈ ([] : List Cargo.Unit) → u2 ∈ ([] : List Cargo.Unit) →
      ¬ fatal_pair primaries u1 u2 := by
    intro u1 u2 h1
    simp at h1
  have hdisj0 : ∀ u, u ∈ units.filter (fun u => !u.mode.is_run_custom_build) →
      u ∉ ([] : List Cargo.Unit) := by
    intro u _
    simp
  obtain ⟨hce, hco⟩ := cc_fold primaries outputs
    (units.filter (fun u => !u.mode.is_run_custom_build)) [] ⟨[], [], [], []⟩
    hinv1 hinv2 hpf0 hdisj0 hndL
  have hmemL : ∀ x : Cargo.Unit,
      (x ∈ ([] : List Cargo.Unit) ∨
        x ∈ units.filter (fun u => !u.mode.is_run_custom_build)) → x ∈ units := by
    intro x hx
    rcases hx with hx | hx
    · simp at hx
    · exact List.mem_of_mem_filter hx
  refine ⟨⟨?_, ?_⟩, ?_, fun a b => doc_msg_names a b, ?_⟩
  · rintro ⟨msg, h⟩
    obtain ⟨u1, u2, h1, h2, hf, _⟩ := hce msg h
    exact ⟨u1, u2, hmemL u1 h1, hmemL u2 h2, hf⟩
  · rintro ⟨u1, u2, h1, h2, hf⟩
    have hm1 : u1 ∈ units.filter (fun u => !u.mode.is_run_custom_build) :=
      List.mem_filter.2 ⟨h1, not_rcb_filter u1 (by rw [hf.2.1]; simp)⟩
    have hm2 : u2 ∈ units.filter (fun u => !u.mode.is_run_custom_build) :=
      List.mem_filter.2 ⟨h2, not_rcb_filter u2 (by rw [hf.2.2.1]; simp)⟩
    cases hres : check_collisions units outputs primaries with
    | error msg => exact ⟨msg, rfl⟩
    | ok st2 =>
      exact absurd hf (hco st2 hres u1 u2 (Or.inr hm1) (Or.inr hm2))
  · intro msg h
    obtain ⟨u1, u2, h1, h2, hf, hmsg⟩ := hce msg h
    exact ⟨u1, u2, hmemL u1 h1, hmemL u2 h2, hf, hmsg⟩
  · intro st hok u1 u2 p h1 h2 hne hp1 hp2 hr1 hr2
    have hm1 : u1 ∈ units.filter (fun u => !u.mode.is_run_custom_build) :=
      List.mem_filter.2 ⟨h1, not_rcb_filter u1 hr1⟩
    have hm2 : u2 ∈ units.filter (fun u => !u.mode.is_run_custom_build) :=
      List.mem_filter.2 ⟨h2, not_rcb_filter u2 hr2⟩
    obtain ⟨l1, l2, l3, x, y, hxy, hLeq⟩ := two_mem_split
      (units.filter (fun u => !u.mode.is_run_custom_build)) u1 u2 hm1 hm2 hne
    have hok2 : List.foldlM (ccStep primaries outputs) ⟨[], [], [], []⟩
        (l1 ++ x :: (l2 ++ y :: l3)) = .ok st := by
      rw [← hLeq]
      exact hok
    rcases hxy with ⟨hx, hy⟩ | ⟨hx, hy⟩
    · refine cc_warn_split primaries outputs l1 l2 l3 x y _ st p ?_ ?_ hok2
      · rw [hx]; exact hp1
      · rw [hy]; exact hp2
    · refine cc_warn_split primaries outputs l1 l2 l3 x y _ st p ?_ ?_ hok2
      · rw [hx]; exact hp2
      · rw [hy]; exact hp1

/-- Witness for `check_collisions_spec`: two distinct primary Doc-mode
library units sharing crate name `foo` make `check_collisions` fatal. -/
theorem check_collisions_spec_witness :
    ∃ msg, check_collisions [u0doc, u1doc] outEmpty
      ["foo v1.0.0", "baz v0.5.0"] = .error msg :=
  ((check_collisions_spec [u0doc, u1doc] outEmpty
      ["foo v1.0.0", "baz v0.5.0"] (by decide)).1).2
    ⟨u0doc, u1doc, List.mem_cons_self _ _,
      List.mem_cons_of_mem _ (List.mem_cons_self _ _),
      ⟨by decide, rfl, rfl, by decide, by decide, rfl, rfl, rfl⟩⟩

/-- C8 at the failing input: the root's single dependency is dep 1 and dep
1's unit depends on dep 0, which sorts before it. The `packages` array comes
out in pop order [1, 0], but the index loop enumerates the sorted visited
set [0, 1], so the entry for dep 1 receives the empty dependency list of dep
0 and the entry for dep 0 receives index 0 — which points at the entry of
dep 1, not at a dependency of dep 0. The claim requires [(1, [1]), (0, [])]. -/
theorem collect_packages_misaligned :
    collect_packages exGraph [1] 10 = [(1, []), (0, [0])] ∧
    ¬(collect_packages exGraph [1] 10 = [(1, [1]), (0, [])]) := by
  constructor
  · rfl
  · decide
